import Mathlib

/-!
Bullet quaternion algebra and temporal transform utilities.

A shallow embedding of `src/LinearMath/btQuaternion.h` (scalar path, i.e. neither
`BT_USE_SSE` nor `BT_USE_NEON`) and of `src/Bullet3Common/b3TransformUtil.h`.

`btScalar` is a build-time typedef (`float` or `double`) in the sources.  The
embedding is generic in the scalar type `α`, a linearly ordered field, so that
every definition can be evaluated over `ℚ`; the properties are stated in exact
arithmetic, over `ℝ` whenever the scalar math library is involved.
-/

namespace Bullet

/-! ## Scalars -/

/-- Modelled from the spec: the scalar math library and the constants of `btScalar.h`
(`btSqrt`, `btSin`, `btCos`, `btAcos`, `SIMD_EPSILON`, `SIMD_HALF_PI`), which is not among
the sources.  They are a parameter of every function that uses them. -/
structure btScalarMath (α : Type) where
  btSqrt : α → α
  btSin : α → α
  btCos : α → α
  btAcos : α → α
  SIMD_EPSILON : α
  SIMD_HALF_PI : α

/-- Absolute value `btFabs` of `btScalar.h`. -/
def btFabs {α : Type} [LinearOrderedField α] (x : α) : α := |x|

/-! ## 3-vectors -/

/-- Modelled from the spec: `btVector3` / `b3Vector3` (declared in `btVector.h`, not among
the sources), a 3-vector; the fourth padding lane of the C++ type is left out. -/
@[ext]
structure btVector3 (α : Type) where
  x : α
  y : α
  z : α
deriving DecidableEq

namespace btVector3

variable {α : Type} [LinearOrderedField α]

/-- Vector sum, `operator+`. -/
def add (a b : btVector3 α) : btVector3 α := ⟨a.x + b.x, a.y + b.y, a.z + b.z⟩

/-- Vector difference, `operator-`. -/
def sub (a b : btVector3 α) : btVector3 α := ⟨a.x - b.x, a.y - b.y, a.z - b.z⟩

/-- Scaling `v * s`. -/
def scale (a : btVector3 α) (s : α) : btVector3 α := ⟨a.x * s, a.y * s, a.z * s⟩

/-- Inverse scaling `v / s`. -/
def divide (a : btVector3 α) (s : α) : btVector3 α := ⟨a.x / s, a.y / s, a.z / s⟩

/-- Dot product of two 3-vectors. -/
def dot (a b : btVector3 α) : α := a.x * b.x + a.y * b.y + a.z * b.z

/-- Cross product of two 3-vectors. -/
def cross (a b : btVector3 α) : btVector3 α :=
  ⟨a.y * b.z - a.z * b.y, a.z * b.x - a.x * b.z, a.x * b.y - a.y * b.x⟩

/-- Squared Euclidean length. -/
def length2 (a : btVector3 α) : α := dot a a

/-- Euclidean length. -/
def length (M : btScalarMath α) (a : btVector3 α) : α := M.btSqrt (length2 a)

end btVector3

/-! ## Quaternions -/

/-- The quaternion type `btQuaternion : public btVector`: four scalars `m_floats[0..3]`,
read as `x, y, z, w`, with `w` the scalar part. -/
@[ext]
structure btQuaternion (α : Type) where
  x : α
  y : α
  z : α
  w : α
deriving DecidableEq

namespace btQuaternion

variable {α : Type} [LinearOrderedField α]

/-- Modelled from the spec: `operator+` through `btVector_makeSum(.., BT_VEC4_MODE)`
(`btVector.h` is not among the sources): the component-wise sum of two 4-vectors. -/
def add (a b : btQuaternion α) : btQuaternion α := ⟨a.x + b.x, a.y + b.y, a.z + b.z, a.w + b.w⟩

/-- Modelled from the spec: `operator-` through `btVector_makeDiff(.., BT_VEC4_MODE)`:
the component-wise difference of two 4-vectors. -/
def sub (a b : btQuaternion α) : btQuaternion α := ⟨a.x - b.x, a.y - b.y, a.z - b.z, a.w - b.w⟩

/-- Modelled from the spec: unary `operator-` through `btVector_makeNegative`: negates each
element. -/
def neg (a : btQuaternion α) : btQuaternion α := ⟨-a.x, -a.y, -a.z, -a.w⟩

/-- Modelled from the spec: `operator*(const btScalar&)` through `btVector_makeScaled`. -/
def scale (a : btQuaternion α) (s : α) : btQuaternion α := ⟨a.x * s, a.y * s, a.z * s, a.w * s⟩

/-- Modelled from the spec: `operator/(const btScalar&)` through `btVector_makeDivided`. -/
def divide (a : btQuaternion α) (s : α) : btQuaternion α := ⟨a.x / s, a.y / s, a.z / s, a.w / s⟩

/-- Modelled from the spec: `dot` through `btVector_dot(.., BT_VEC4_MODE)`: the standard
4-vector dot product. -/
def dot (a b : btQuaternion α) : α := a.x * b.x + a.y * b.y + a.z * b.z + a.w * b.w

/-- Modelled from the spec: `length2` through `btVector_length2`. -/
def length2 (a : btQuaternion α) : α := dot a a

/-- Modelled from the spec: `length` through `btVector_length`: the norm derived from the
dot product. -/
def length (M : btScalarMath α) (a : btQuaternion α) : α := M.btSqrt (length2 a)

/-- Modelled from the spec: `normalize` through `btVector_normalize`: divides all components
by the Euclidean length. -/
def normalize (M : btScalarMath α) (a : btQuaternion α) : btQuaternion α := divide a (length M a)

/-- Scalar path of `btQuaternion_makeQuatMultiplication`, which is `operator*(q1, q2)`. -/
def btQuaternion_makeQuatMultiplication (q1 q2 : btQuaternion α) : btQuaternion α :=
  let Ax := q1.x; let Ay := q1.y; let Az := q1.z; let Aw := q1.w
  let Bx := q2.x; let By := q2.y; let Bz := q2.z; let Bw := q2.w
  ⟨Aw * Bx + Ax * Bw + Ay * Bz - Az * By,
   Aw * By + Ay * Bw + Az * Bx - Ax * Bz,
   Aw * Bz + Az * Bw + Ax * By - Ay * Bx,
   Aw * Bw - Ax * Bx - Ay * By - Az * Bz⟩

/-- Scalar path of `btQuaternion_multiplyQuat`, which is `operator*=(q)`: the new value of
`self`. -/
def btQuaternion_multiplyQuat (self q : btQuaternion α) : btQuaternion α :=
  let Ax := self.x; let Ay := self.y; let Az := self.z; let Aw := self.w
  let Bx := q.x; let By := q.y; let Bz := q.z; let Bw := q.w
  ⟨Aw * Bx + Ax * Bw + Ay * Bz - Az * By,
   Aw * By + Ay * Bw + Az * Bx - Ax * Bz,
   Aw * Bz + Az * Bw + Ax * By - Ay * Bx,
   Aw * Bw - Ax * Bx - Ay * By - Az * Bz⟩

/-- Scalar path of `btQuaternion_makeQuatVector3Multiplication`, which is
`operator*(q, v)`. -/
def btQuaternion_makeQuatVector3Multiplication (q : btQuaternion α) (v : btVector3 α) :
    btQuaternion α :=
  let Ax := q.x; let Ay := q.y; let Az := q.z; let Aw := q.w
  let Bx := v.x; let By := v.y; let Bz := v.z
  ⟨Aw * Bx + Ay * Bz - Az * By,
   Aw * By + Az * Bx - Ax * Bz,
   Aw * Bz + Ax * By - Ay * Bx,
   -(Ax * Bx + Ay * By + Az * Bz)⟩

/-- Scalar path of `btQuaternion_makeVector3QuatMultiplication`, which is
`operator*(v, q)`. -/
def btQuaternion_makeVector3QuatMultiplication (v : btVector3 α) (q : btQuaternion α) :
    btQuaternion α :=
  let Ax := v.x; let Ay := v.y; let Az := v.z
  let Bx := q.x; let By := q.y; let Bz := q.z; let Bw := q.w
  ⟨Ax * Bw + Ay * Bz - Az * By,
   Ay * Bw + Az * Bx - Ax * Bz,
   Az * Bw + Ax * By - Ay * Bx,
   -(Ax * Bx + Ay * By + Az * Bz)⟩

/-- The member `inverse()`, scalar path. -/
def inverse (q : btQuaternion α) : btQuaternion α := ⟨-q.x, -q.y, -q.z, q.w⟩

/-- The constant returned by `getIdentity()`. -/
def getIdentity : btQuaternion α := ⟨0, 0, 0, 1⟩

/-- The member `getAngle()`. -/
def getAngle (M : btScalarMath α) (q : btQuaternion α) : α := 2 * M.btAcos q.w

/-- The member `angleShortestPath(q)`.  Its assertion `btAssert(s != btScalar(0.0))` is a
precondition: it holds when both quaternions are non-zero. -/
def angleShortestPath (M : btScalarMath α) (self q : btQuaternion α) : α :=
  let s := M.btSqrt (length2 self * length2 q)
  if dot self q < 0 then
    M.btAcos (dot self (neg q) / s) * 2.0
  else
    M.btAcos (dot self q / s) * 2.0

/-- The member `getAngleShortestPath()`. -/
def getAngleShortestPath (M : btScalarMath α) (self : btQuaternion α) : α :=
  if dot self self < 0 then
    2 * M.btAcos self.w
  else
    2 * M.btAcos (-self.w)

/-- The member `getAxis()`. -/
def getAxis (M : btScalarMath α) (q : btQuaternion α) : btVector3 α :=
  let s_squared := 1 - q.w * q.w
  if s_squared < 10 * M.SIMD_EPSILON then
    ⟨1, 0, 0⟩
  else
    let s := 1 / M.btSqrt s_squared
    ⟨q.x * s, q.y * s, q.z * s⟩

/-- The function `btQuaternion_setRotation`, which is `setRotation(axis, angle)` and the
axis-angle constructor `btQuaternion(axis, angle)`: the quaternion written to `self`, or
`none` when the assertion `btAssert(d != btScalar(0.0))` fails. -/
def btQuaternion_setRotation (M : btScalarMath α) (axis : btVector3 α) (angle : α) :
    Option (btQuaternion α) :=
  let d := btVector3.length M axis
  if d ≠ 0 then
    let halfAngle := angle * 0.5
    let s := M.btSin halfAngle / d
    some ⟨axis.x * s, axis.y * s, axis.z * s, M.btCos halfAngle⟩
  else
    none

/-- The function `btQuaternion_setEuler`, which is `setEuler(yaw, pitch, roll)`: the
quaternion written to `self`. -/
def btQuaternion_setEuler (M : btScalarMath α) (yaw pitch roll : α) : btQuaternion α :=
  let halfYaw := yaw * 0.5
  let halfPitch := pitch * 0.5
  let halfRoll := roll * 0.5
  let cosYaw := M.btCos halfYaw
  let sinYaw := M.btSin halfYaw
  let cosPitch := M.btCos halfPitch
  let sinPitch := M.btSin halfPitch
  let cosRoll := M.btCos halfRoll
  let sinRoll := M.btSin halfRoll
  ⟨cosRoll * sinPitch * cosYaw + sinRoll * cosPitch * sinYaw,
   cosRoll * cosPitch * sinYaw - sinRoll * sinPitch * cosYaw,
   sinRoll * cosPitch * cosYaw - cosRoll * sinPitch * sinYaw,
   cosRoll * cosPitch * cosYaw + sinRoll * sinPitch * sinYaw⟩

/-- The function `btQuaternion_setEulerZYX`, which is `setEulerZYX(yaw, pitch, roll)`: the
quaternion written to `self`. -/
def btQuaternion_setEulerZYX (M : btScalarMath α) (yaw pitch roll : α) : btQuaternion α :=
  let halfYaw := yaw * 0.5
  let halfPitch := pitch * 0.5
  let halfRoll := roll * 0.5
  let cosYaw := M.btCos halfYaw
  let sinYaw := M.btSin halfYaw
  let cosPitch := M.btCos halfPitch
  let sinPitch := M.btSin halfPitch
  let cosRoll := M.btCos halfRoll
  let sinRoll := M.btSin halfRoll
  ⟨sinRoll * cosPitch * cosYaw - cosRoll * sinPitch * sinYaw,
   cosRoll * sinPitch * cosYaw + sinRoll * cosPitch * sinYaw,
   cosRoll * cosPitch * sinYaw - sinRoll * sinPitch * cosYaw,
   cosRoll * cosPitch * cosYaw + sinRoll * sinPitch * sinYaw⟩

/-- The member `farthest(qd)`. -/
def farthest (self qd : btQuaternion α) : btQuaternion α :=
  let diff := sub self qd
  let sum := add self qd
  if dot diff diff > dot sum sum then qd else neg qd

/-- The member `nearest(qd)`. -/
def nearest (self qd : btQuaternion α) : btQuaternion α :=
  let diff := sub self qd
  let sum := add self qd
  if dot diff diff < dot sum sum then qd else neg qd

/-- The member `slerp(q, t)`.  Its assertion `btAssert(magnitude > btScalar(0))` is a
precondition: it holds when both quaternions are non-zero. -/
def slerp (M : btScalarMath α) (self q : btQuaternion α) (t : α) : btQuaternion α :=
  let magnitude := M.btSqrt (length2 self * length2 q)
  let product := dot self q / magnitude
  if btFabs product < 1 then
    let sign : α := if product < 0 then -1 else 1
    let theta := M.btAcos (sign * product)
    let s1 := M.btSin (sign * t * theta)
    let d := 1 / M.btSin theta
    let s0 := M.btSin ((1 - t) * theta)
    ⟨(self.x * s0 + q.x * s1) * d,
     (self.y * s0 + q.y * s1) * d,
     (self.z * s0 + q.z * s1) * d,
     (self.w * s0 + q.w * s1) * d⟩
  else
    self

end btQuaternion

open btQuaternion

variable {α : Type} [LinearOrderedField α]

/-- The free function `quatRotate(rotation, v)`, scalar path. -/
def quatRotate (rotation : btQuaternion α) (v : btVector3 α) : btVector3 α :=
  let q := btQuaternion_makeQuatVector3Multiplication rotation v
  let q := btQuaternion_multiplyQuat q (inverse rotation)
  ⟨q.x, q.y, q.z⟩

/-- The free function `shortestArcQuat(v0, v1)`.  The helper `btPlaneSpace1` (declared in
`btVector3.h`, not among the sources) is the parameter `btPlaneSpace1`, returning the pair
`(n, unused)` it writes. -/
def shortestArcQuat (M : btScalarMath α)
    (btPlaneSpace1 : btVector3 α → btVector3 α × btVector3 α) (v0 v1 : btVector3 α) :
    btQuaternion α :=
  let c := btVector3.cross v0 v1
  let d := btVector3.dot v0 v1
  if d < -1.0 + M.SIMD_EPSILON then
    let n := (btPlaneSpace1 v0).1
    ⟨n.x, n.y, n.z, 0.0⟩
  else
    let s := M.btSqrt ((1.0 + d) * 2.0)
    let rs := 1.0 / s
    ⟨c.x * rs, c.y * rs, c.z * rs, s * 0.5⟩

/-! ## Temporal transforms (`b3TransformUtil.h`) -/

/-- Modelled from the spec: `b3Quaternion` (declared in `b3Quaternion.h`, not among the
sources) is the quaternion type of `btQuaternion.h`. -/
abbrev b3Quaternion (α : Type) := btQuaternion α

/-- Modelled from the spec: `b3Vector3` (declared in `b3Vector3.h`, not among the sources)
is the 3-vector type. -/
abbrev b3Vector3 (α : Type) := btVector3 α

/-- Modelled from the spec: `b3Transform` (declared in `b3Transform.h`, not among the
sources), a pose: an origin position plus an orientation quaternion, read by `getOrigin()`
and `getRotation()` and written by `setOrigin` and `setRotation`. -/
@[ext]
structure b3Transform (α : Type) where
  getOrigin : b3Vector3 α
  getRotation : b3Quaternion α
deriving DecidableEq

/-- The macro `ANGULAR_MOTION_THRESHOLD`, `b3Scalar(0.5)*SIMD_HALF_PI`. -/
def ANGULAR_MOTION_THRESHOLD (M : btScalarMath α) : α := 0.5 * M.SIMD_HALF_PI

namespace b3TransformUtil

/-- The exponential-map branch of `b3TransformUtil::integrateTransform`
(`QUATERNION_DERIVATIVE` is not defined); the result is `predictedTransform`. -/
def integrateTransform (M : btScalarMath α) (curTrans : b3Transform α)
    (linvel angvel : b3Vector3 α) (timeStep : α) : b3Transform α :=
  let origin := btVector3.add curTrans.getOrigin (btVector3.scale linvel timeStep)
  let fAngle := btVector3.length M angvel
  let fAngle :=
    if fAngle * timeStep > ANGULAR_MOTION_THRESHOLD M then
      ANGULAR_MOTION_THRESHOLD M / timeStep
    else fAngle
  let axis :=
    if fAngle < 0.001 then
      btVector3.scale angvel
        (0.5 * timeStep - (timeStep * timeStep * timeStep) * 0.020833333333 * fAngle * fAngle)
    else
      btVector3.scale angvel (M.btSin (0.5 * fAngle * timeStep) / fAngle)
  let dorn : b3Quaternion α := ⟨axis.x, axis.y, axis.z, M.btCos (fAngle * timeStep * 0.5)⟩
  let orn0 := curTrans.getRotation
  let predictedOrn := btQuaternion_makeQuatMultiplication dorn orn0
  let predictedOrn := btQuaternion.normalize M predictedOrn
  ⟨origin, predictedOrn⟩

/-- The local variable `dorn` of `b3TransformUtil::integrateTransform`: the incremental
rotation that is multiplied on the left of the current orientation before `normalize()`. -/
def integrateTransform_dorn (M : btScalarMath α) (angvel : b3Vector3 α) (timeStep : α) :
    b3Quaternion α :=
  let fAngle := btVector3.length M angvel
  let fAngle :=
    if fAngle * timeStep > ANGULAR_MOTION_THRESHOLD M then
      ANGULAR_MOTION_THRESHOLD M / timeStep
    else fAngle
  let axis :=
    if fAngle < 0.001 then
      btVector3.scale angvel
        (0.5 * timeStep - (timeStep * timeStep * timeStep) * 0.020833333333 * fAngle * fAngle)
    else
      btVector3.scale angvel (M.btSin (0.5 * fAngle * timeStep) / fAngle)
  ⟨axis.x, axis.y, axis.z, M.btCos (fAngle * timeStep * 0.5)⟩

/-- The function `b3TransformUtil::calculateDiffAxisAngleQuaternion`; the result is the
pair `(axis, angle)`. -/
def calculateDiffAxisAngleQuaternion (M : btScalarMath α) (orn0 orn1a : b3Quaternion α) :
    b3Vector3 α × α :=
  let orn1 := nearest orn0 orn1a
  let dorn := btQuaternion_makeQuatMultiplication orn1 (inverse orn0)
  let angle := getAngle M dorn
  let axis : b3Vector3 α := ⟨dorn.x, dorn.y, dorn.z⟩
  let len := btVector3.length2 axis
  if len < M.SIMD_EPSILON * M.SIMD_EPSILON then
    (⟨1, 0, 0⟩, angle)
  else
    (btVector3.divide axis (M.btSqrt len), angle)

/-- The function `b3TransformUtil::calculateVelocityQuaternion`; the result is the pair
`(linVel, angVel)`. -/
def calculateVelocityQuaternion (M : btScalarMath α) (pos0 pos1 : b3Vector3 α)
    (orn0 orn1 : b3Quaternion α) (timeStep : α) : b3Vector3 α × b3Vector3 α :=
  let linVel := btVector3.divide (btVector3.sub pos1 pos0) timeStep
  if orn0 ≠ orn1 then
    let (axis, angle) := calculateDiffAxisAngleQuaternion M orn0 orn1
    (linVel, btVector3.divide (btVector3.scale axis angle) timeStep)
  else
    (linVel, ⟨0, 0, 0⟩)

end b3TransformUtil

/-! ## The separating-distance tracker -/

/-- The data members of `btConvexSeparatingDistanceUtil`. -/
@[ext]
structure btConvexSeparatingDistanceUtil (α : Type) where
  m_ornA : b3Quaternion α
  m_ornB : b3Quaternion α
  m_posA : b3Vector3 α
  m_posB : b3Vector3 α
  m_separatingNormal : b3Vector3 α
  m_boundingRadiusA : α
  m_boundingRadiusB : α
  m_separatingDistance : α

namespace btConvexSeparatingDistanceUtil

/-- The constructor `btConvexSeparatingDistanceUtil(boundingRadiusA, boundingRadiusB)`: it
sets the two radii and the distance `0.f`; the members it leaves uninitialised keep the
values of `uninit`. -/
def construct (uninit : btConvexSeparatingDistanceUtil α) (boundingRadiusA boundingRadiusB : α) :
    btConvexSeparatingDistanceUtil α :=
  { uninit with
    m_boundingRadiusA := boundingRadiusA
    m_boundingRadiusB := boundingRadiusB
    m_separatingDistance := 0 }

/-- The member `getConservativeSeparatingDistance()`. -/
def getConservativeSeparatingDistance (self : btConvexSeparatingDistanceUtil α) : α :=
  self.m_separatingDistance

/-- The member `updateSeparatingDistance(transA, transB)`: the state after the call. -/
def updateSeparatingDistance (M : btScalarMath α) (self : btConvexSeparatingDistanceUtil α)
    (transA transB : b3Transform α) : btConvexSeparatingDistanceUtil α :=
  let toPosA := transA.getOrigin
  let toPosB := transB.getOrigin
  let toOrnA := transA.getRotation
  let toOrnB := transB.getRotation
  let separatingDistance :=
    if self.m_separatingDistance > 0 then
      let (linVelA, angVelA) :=
        b3TransformUtil.calculateVelocityQuaternion M self.m_posA toPosA self.m_ornA toOrnA 1
      let (linVelB, angVelB) :=
        b3TransformUtil.calculateVelocityQuaternion M self.m_posB toPosB self.m_ornB toOrnB 1
      let maxAngularProjectedVelocity :=
        btVector3.length M angVelA * self.m_boundingRadiusA
          + btVector3.length M angVelB * self.m_boundingRadiusB
      let relLinVel := btVector3.sub linVelB linVelA
      let relLinVelocLength := btVector3.dot relLinVel self.m_separatingNormal
      let relLinVelocLength := if relLinVelocLength < 0 then 0 else relLinVelocLength
      let projectedMotion := maxAngularProjectedVelocity + relLinVelocLength
      self.m_separatingDistance - projectedMotion
    else
      self.m_separatingDistance
  { self with
    m_separatingDistance := separatingDistance
    m_posA := toPosA
    m_posB := toPosB
    m_ornA := toOrnA
    m_ornB := toOrnB }

/-- The member `initSeparatingDistance(separatingVector, separatingDistance, transA,
transB)`: the state after the call. -/
def initSeparatingDistance (self : btConvexSeparatingDistanceUtil α)
    (separatingVector : b3Vector3 α) (separatingDistance : α) (transA transB : b3Transform α) :
    btConvexSeparatingDistanceUtil α :=
  if separatingDistance > 0 then
    { self with
      m_separatingDistance := separatingDistance
      m_separatingNormal := separatingVector
      m_posA := transA.getOrigin
      m_posB := transB.getOrigin
      m_ornA := transA.getRotation
      m_ornB := transB.getRotation }
  else
    { self with m_separatingDistance := separatingDistance }

end btConvexSeparatingDistanceUtil

/-! ## Sequences of calls -/

/-- The tracker after a finite sequence of `updateSeparatingDistance` calls, one per pair of
transforms of the list, in order. -/
def updateSeparatingDistanceSeq (M : btScalarMath α) (self : btConvexSeparatingDistanceUtil α)
    (calls : List (b3Transform α × b3Transform α)) : btConvexSeparatingDistanceUtil α :=
  calls.foldl
    (fun s c => btConvexSeparatingDistanceUtil.updateSeparatingDistance M s c.1 c.2) self

/-! ## Exact real arithmetic -/

/-- The scalar math library in exact real arithmetic: the real square root, sine, cosine and
arc cosine, `SIMD_HALF_PI = π / 2`, and a machine epsilon `eps` left as a parameter
(`FLT_EPSILON` or `DBL_EPSILON` depending on the build). -/
noncomputable def realMath (eps : ℝ) : btScalarMath ℝ where
  btSqrt := Real.sqrt
  btSin := Real.sin
  btCos := Real.cos
  btAcos := Real.arccos
  SIMD_EPSILON := eps
  SIMD_HALF_PI := Real.pi / 2

/-! ## Reference definitions taken from the specification -/

/-- The Hamilton product as the specification writes it: vector part
`w1·v2 + w2·v1 + v1×v2`, scalar part `w1·w2 − v1·v2`. -/
def hamiltonProduct (q1 q2 : btQuaternion α) : btQuaternion α :=
  let v1 : btVector3 α := ⟨q1.x, q1.y, q1.z⟩
  let v2 : btVector3 α := ⟨q2.x, q2.y, q2.z⟩
  let v := btVector3.add (btVector3.add (btVector3.scale v2 q1.w) (btVector3.scale v1 q2.w))
    (btVector3.cross v1 v2)
  ⟨v.x, v.y, v.z, q1.w * q2.w - btVector3.dot v1 v2⟩

/-- The axis-angle quaternion as the specification writes it: the axis divided by its
length, times `sin(angle/2)`, concatenated with `cos(angle/2)`. -/
def axisAngleQuaternion (M : btScalarMath α) (axis : btVector3 α) (angle : α) : btQuaternion α :=
  let n := btVector3.divide axis (btVector3.length M axis)
  let v := btVector3.scale n (M.btSin (angle / 2))
  ⟨v.x, v.y, v.z, M.btCos (angle / 2)⟩

/-! ## Quaternion composition -/

/-- C2: quaternion composition, both as `operator*` (`btQuaternion_makeQuatMultiplication`)
and as `operator*=` (`btQuaternion_multiplyQuat`), is exactly the Hamilton product: vector
part `w1*v2 + w2*v1 + v1 x v2`, scalar part `w1*w2 - v1 . v2`. -/
theorem quatMultiplication_is_hamiltonProduct (q1 q2 : btQuaternion α) :
    btQuaternion_makeQuatMultiplication q1 q2 = hamiltonProduct q1 q2
      ∧ btQuaternion_multiplyQuat q1 q2 = hamiltonProduct q1 q2 := by
  constructor <;>
    (ext <;>
      simp only [btQuaternion_makeQuatMultiplication, btQuaternion_multiplyQuat, hamiltonProduct,
        btVector3.add, btVector3.scale, btVector3.cross, btVector3.dot] <;>
      ring)

/-- Rotating by a product is rotating by the right factor first, then by the left one. -/
theorem quatRotate_comp (q1 q2 : btQuaternion α) (v : btVector3 α) :
    quatRotate (btQuaternion_makeQuatMultiplication q1 q2) v
      = quatRotate q1 (quatRotate q2 v) := by
  ext <;>
    simp only [quatRotate, btQuaternion_makeQuatMultiplication, btQuaternion_multiplyQuat,
      btQuaternion_makeQuatVector3Multiplication, inverse] <;>
    ring

/-- C3: composition order, `q1 * q2` is "apply `q2`, then `q1`": rotating by the product
equals rotating by `q2` and then by `q1`, for all quaternions and every 3-vector. -/
theorem quatRotate_mul (q1 q2 : btQuaternion α) (v : btVector3 α) :
    quatRotate (btQuaternion_makeQuatMultiplication q1 q2) v
      = quatRotate q1 (quatRotate q2 v) :=
  quatRotate_comp q1 q2 v

/-- C10: for every unit quaternion `q`, `q * inverse(q)` is the identity quaternion
`(0,0,0,1)`. -/
theorem mul_inverse_of_unit (q : btQuaternion α) (hq : q.x ^ 2 + q.y ^ 2 + q.z ^ 2 + q.w ^ 2 = 1) :
    btQuaternion_makeQuatMultiplication q (inverse q) = getIdentity := by
  ext <;> simp only [btQuaternion_makeQuatMultiplication, inverse, getIdentity]
  · ring
  · ring
  · ring
  · rw [← hq]; ring

/-- Witness of C10 at the unit quaternion `(3/5, 0, 0, 4/5)`. -/
theorem mul_inverse_of_unit_witness :
    btQuaternion_makeQuatMultiplication (⟨3 / 5, 0, 0, 4 / 5⟩ : btQuaternion ℚ)
      (inverse ⟨3 / 5, 0, 0, 4 / 5⟩) = getIdentity :=
  mul_inverse_of_unit ⟨3 / 5, 0, 0, 4 / 5⟩ (by norm_num)

/-! ## Double-cover disambiguation -/

/-- The squared distances compared by `nearest` and `farthest` differ by four times the
dot product. -/
theorem dot_sub_add (q qd : btQuaternion α) :
    dot (add q qd) (add q qd) - dot (sub q qd) (sub q qd) = 4 * dot q qd := by
  simp only [dot, add, sub]; ring

/-- A quaternion equals its negative only when it is zero. -/
theorem eq_neg_iff_zero (qd : btQuaternion α) : qd = neg qd ↔ qd = ⟨0, 0, 0, 0⟩ := by
  constructor
  · intro h
    have hx := congrArg btQuaternion.x h
    have hy := congrArg btQuaternion.y h
    have hz := congrArg btQuaternion.z h
    have hw := congrArg btQuaternion.w h
    simp only [neg] at hx hy hz hw
    ext
    · show qd.x = 0; linarith
    · show qd.y = 0; linarith
    · show qd.z = 0; linarith
    · show qd.w = 0; linarith
  · intro h; rw [h]; simp [neg]

/-- C7, counterexample: for the orthogonal pair `q = (1,0,0,0)`, `q2 = (0,1,0,0)` the two
squared distances tie, and `nearest` and `farthest` both return `-q2`. -/
theorem nearest_eq_farthest_of_orthogonal :
    nearest (⟨1, 0, 0, 0⟩ : btQuaternion ℚ) ⟨0, 1, 0, 0⟩
      = farthest (⟨1, 0, 0, 0⟩ : btQuaternion ℚ) ⟨0, 1, 0, 0⟩ := by
  simp [nearest, farthest, dot, add, sub]

/-- C7, amended: `nearest` and `farthest` each return one of `q2`, `-q2`, and they differ
exactly when the dot product of the reference `q` with `q2` is not zero; when that dot
product is zero both return `-q2`. -/
theorem nearest_farthest_complementary (q q2 : btQuaternion α) :
    (nearest q q2 = q2 ∨ nearest q q2 = neg q2)
      ∧ (farthest q q2 = q2 ∨ farthest q q2 = neg q2)
      ∧ (nearest q q2 ≠ farthest q q2 ↔ dot q q2 ≠ 0)
      ∧ (dot q q2 = 0 → nearest q q2 = neg q2 ∧ farthest q q2 = neg q2) := by
  have key := dot_sub_add q q2
  refine ⟨?_, ?_, ?_, ?_⟩
  · unfold nearest; dsimp only; split_ifs <;> simp
  · unfold farthest; dsimp only; split_ifs <;> simp
  · have hne : dot q q2 ≠ 0 → q2 ≠ neg q2 := by
      intro hd h
      rw [(eq_neg_iff_zero q2).1 h] at hd
      simp [dot] at hd
    unfold nearest farthest; dsimp only
    rcases lt_trichotomy (dot q q2) 0 with h | h | h
    · have h1 : ¬ dot (sub q q2) (sub q q2) < dot (add q q2) (add q q2) := by
        rw [not_lt]; linarith
      have h2 : dot (sub q q2) (sub q q2) > dot (add q q2) (add q q2) := by
        show _ < _; linarith
      rw [if_neg h1, if_pos h2]
      exact ⟨fun _ => h.ne, fun _ hh => hne h.ne hh.symm⟩
    · have h1 : ¬ dot (sub q q2) (sub q q2) < dot (add q q2) (add q q2) := by
        rw [not_lt]; linarith
      have h2 : ¬ dot (sub q q2) (sub q q2) > dot (add q q2) (add q q2) := by
        rw [gt_iff_lt, not_lt]; linarith
      rw [if_neg h1, if_neg h2]
      exact ⟨fun hh => absurd rfl hh, fun hh => absurd h hh⟩
    · have h1 : dot (sub q q2) (sub q q2) < dot (add q q2) (add q q2) := by linarith
      have h2 : ¬ dot (sub q q2) (sub q q2) > dot (add q q2) (add q q2) := by
        rw [gt_iff_lt, not_lt]; linarith
      rw [if_pos h1, if_neg h2]
      exact ⟨fun _ => h.ne.symm, fun _ hh => hne h.ne.symm hh⟩
  · intro h
    have h1 : ¬ dot (sub q q2) (sub q q2) < dot (add q q2) (add q q2) := by
      rw [not_lt]; linarith
    have h2 : ¬ dot (sub q q2) (sub q q2) > dot (add q q2) (add q q2) := by
      rw [gt_iff_lt, not_lt]; linarith
    unfold nearest farthest; dsimp only
    rw [if_neg h1, if_neg h2]
    exact ⟨rfl, rfl⟩

/-- Witness of C7 (amended) on a tie: for `q = (0,0,0,1)` and `q2 = (0,0,1,0)`, whose dot
product is zero, `nearest` and `farthest` both return `-q2`. -/
theorem nearest_farthest_complementary_witness :
    nearest (⟨0, 0, 0, 1⟩ : btQuaternion ℚ) ⟨0, 0, 1, 0⟩ = neg ⟨0, 0, 1, 0⟩
      ∧ farthest (⟨0, 0, 0, 1⟩ : btQuaternion ℚ) ⟨0, 0, 1, 0⟩ = neg ⟨0, 0, 1, 0⟩ :=
  (nearest_farthest_complementary (⟨0, 0, 0, 1⟩ : btQuaternion ℚ) ⟨0, 0, 1, 0⟩).2.2.2
    (by norm_num [dot])

/-! ## The separating-distance tracker: update formula -/

open btConvexSeparatingDistanceUtil b3TransformUtil

/-- With equal orientations `calculateVelocityQuaternion` over the unit interval returns the
position difference and a zero angular velocity. -/
theorem calculateVelocityQuaternion_same_orn (M : btScalarMath α) (pos0 pos1 : b3Vector3 α)
    (orn : b3Quaternion α) :
    calculateVelocityQuaternion M pos0 pos1 orn orn 1 = (btVector3.sub pos1 pos0, ⟨0, 0, 0⟩) := by
  simp [calculateVelocityQuaternion, btVector3.divide, btVector3.sub]

/-- The stored distance after `updateSeparatingDistance` when it was positive before. -/
theorem updateSeparatingDistance_armed (M : btScalarMath α)
    (s : btConvexSeparatingDistanceUtil α) (transA transB : b3Transform α)
    (hd : 0 < s.m_separatingDistance) :
    (updateSeparatingDistance M s transA transB).m_separatingDistance
      = s.m_separatingDistance
        - (btVector3.length M
              (calculateVelocityQuaternion M s.m_posA transA.getOrigin s.m_ornA
                transA.getRotation 1).2 * s.m_boundingRadiusA
            + btVector3.length M
              (calculateVelocityQuaternion M s.m_posB transB.getOrigin s.m_ornB
                transB.getRotation 1).2 * s.m_boundingRadiusB
            + max 0 (btVector3.dot
                (btVector3.sub
                  (calculateVelocityQuaternion M s.m_posB transB.getOrigin s.m_ornB
                    transB.getRotation 1).1
                  (calculateVelocityQuaternion M s.m_posA transA.getOrigin s.m_ornA
                    transA.getRotation 1).1)
                s.m_separatingNormal)) := by
  unfold updateSeparatingDistance
  simp only [gt_iff_lt, hd, if_true]
  congr 2
  split_ifs with h
  · rw [max_eq_left h.le]
  · rw [max_eq_right (not_lt.1 h)]

/-- Without rotation the decrement of `updateSeparatingDistance` is the relative displacement
of B against A along the stored normal, clamped below at zero. -/
theorem updateSeparatingDistance_translation (M : btScalarMath α) (hsqrt : M.btSqrt 0 = 0)
    (s : btConvexSeparatingDistanceUtil α) (transA transB : b3Transform α)
    (hd : 0 < s.m_separatingDistance)
    (hA : transA.getRotation = s.m_ornA) (hB : transB.getRotation = s.m_ornB) :
    (updateSeparatingDistance M s transA transB).m_separatingDistance
      = s.m_separatingDistance
        - max 0 (btVector3.dot
            (btVector3.sub (btVector3.sub transB.getOrigin s.m_posB)
              (btVector3.sub transA.getOrigin s.m_posA))
            s.m_separatingNormal) := by
  rw [updateSeparatingDistance_armed M s transA transB hd, hA, hB,
    calculateVelocityQuaternion_same_orn, calculateVelocityQuaternion_same_orn]
  simp [btVector3.length, btVector3.length2, btVector3.dot, hsqrt]

/-- C6: whenever the stored distance `d` is positive, `updateSeparatingDistance` sets it to
`d - (|angVelA|*radiusA + |angVelB|*radiusB + max(0, dot(linVelB - linVelA, normal)))` with
the velocities of `calculateVelocityQuaternion` over the unit time step; in particular
(the square root of zero being zero) with unchanged orientations and a relative displacement
of B against A of `c >= 0` along the stored normal, the distance decreases by exactly `c`. -/
theorem updateSeparatingDistance_formula (M : btScalarMath α)
    (s : btConvexSeparatingDistanceUtil α) (transA transB : b3Transform α)
    (hd : 0 < s.m_separatingDistance) :
    (updateSeparatingDistance M s transA transB).m_separatingDistance
      = s.m_separatingDistance
        - (btVector3.length M
              (calculateVelocityQuaternion M s.m_posA transA.getOrigin s.m_ornA
                transA.getRotation 1).2 * s.m_boundingRadiusA
            + btVector3.length M
              (calculateVelocityQuaternion M s.m_posB transB.getOrigin s.m_ornB
                transB.getRotation 1).2 * s.m_boundingRadiusB
            + max 0 (btVector3.dot
                (btVector3.sub
                  (calculateVelocityQuaternion M s.m_posB transB.getOrigin s.m_ornB
                    transB.getRotation 1).1
                  (calculateVelocityQuaternion M s.m_posA transA.getOrigin s.m_ornA
                    transA.getRotation 1).1)
                s.m_separatingNormal))
    ∧ (M.btSqrt 0 = 0 → transA.getRotation = s.m_ornA → transB.getRotation = s.m_ornB →
        ∀ c : α, 0 ≤ c →
          btVector3.dot
            (btVector3.sub (btVector3.sub transB.getOrigin s.m_posB)
              (btVector3.sub transA.getOrigin s.m_posA))
            s.m_separatingNormal = c →
          (updateSeparatingDistance M s transA transB).m_separatingDistance
            = s.m_separatingDistance - c) := by
  refine ⟨updateSeparatingDistance_armed M s transA transB hd, ?_⟩
  intro hsqrt hA hB c hc hdot
  rw [updateSeparatingDistance_translation M hsqrt s transA transB hd hA hB, hdot,
    max_eq_right hc]

/-- Witness of C6: a tracker at distance 10 with normal `(1,0,0)`, body A resting at
`(12,0,0)` and body B moving from the origin to `(3,0,0)` without rotation: the distance
drops by 3. -/
theorem updateSeparatingDistance_formula_witness :
    (updateSeparatingDistance (realMath (1 / 8388608))
      ⟨⟨0, 0, 0, 1⟩, ⟨0, 0, 0, 1⟩, ⟨12, 0, 0⟩, ⟨0, 0, 0⟩, ⟨1, 0, 0⟩, 1, 1, 10⟩
      ⟨⟨12, 0, 0⟩, ⟨0, 0, 0, 1⟩⟩ ⟨⟨3, 0, 0⟩, ⟨0, 0, 0, 1⟩⟩).m_separatingDistance = 10 - 3 :=
  (updateSeparatingDistance_formula (realMath (1 / 8388608))
    ⟨⟨0, 0, 0, 1⟩, ⟨0, 0, 0, 1⟩, ⟨12, 0, 0⟩, ⟨0, 0, 0⟩, ⟨1, 0, 0⟩, 1, 1, 10⟩
    ⟨⟨12, 0, 0⟩, ⟨0, 0, 0, 1⟩⟩ ⟨⟨3, 0, 0⟩, ⟨0, 0, 0, 1⟩⟩ (by norm_num)).2
    Real.sqrt_zero rfl rfl 3 (by norm_num) (by norm_num [btVector3.dot, btVector3.sub])

/-! ## The separating-distance tracker: end-to-end scenario -/

/-- The scenario of C5 for arbitrary starting poses: a tracker with radii 1 and 1, seeded
with distance 10 and normal `(1,0,0)`, then updated once with body A unchanged and the
origin of body B displaced by `(k,0,0)` without rotation, reports `10 - max 0 k`. -/
theorem scenario_distance (M : btScalarMath α) (hsqrt : M.btSqrt 0 = 0)
    (uninit : btConvexSeparatingDistanceUtil α) (transA transB : b3Transform α) (k : α) :
    getConservativeSeparatingDistance
      (updateSeparatingDistance M
        (initSeparatingDistance (construct uninit 1 1) ⟨1, 0, 0⟩ 10 transA transB)
        transA ⟨btVector3.add transB.getOrigin ⟨k, 0, 0⟩, transB.getRotation⟩)
      = 10 - max 0 k := by
  have h10 : (0 : α) < 10 := by norm_num
  unfold getConservativeSeparatingDistance
  rw [updateSeparatingDistance_translation M hsqrt _ _ _
    (by simp [initSeparatingDistance]) (by simp [initSeparatingDistance, h10])
    (by simp [initSeparatingDistance, h10])]
  simp [initSeparatingDistance, h10, btVector3.dot, btVector3.sub, btVector3.add]

/-- C5, counterexample: in the scenario as stated (body B displaced by one unit along
`-normal`, that is by `(-1,0,0)`), with both bodies at identity orientation, A at `(12,0,0)`
and B at the origin, the reported distance is not 9. -/
theorem scenario_minus_normal_not_nine :
    getConservativeSeparatingDistance
      (updateSeparatingDistance (realMath (1 / 8388608))
        (initSeparatingDistance
          (construct ⟨⟨0, 0, 0, 1⟩, ⟨0, 0, 0, 1⟩, ⟨0, 0, 0⟩, ⟨0, 0, 0⟩, ⟨0, 0, 0⟩, 0, 0, 0⟩ 1 1)
          ⟨1, 0, 0⟩ 10 ⟨⟨12, 0, 0⟩, ⟨0, 0, 0, 1⟩⟩ ⟨⟨0, 0, 0⟩, ⟨0, 0, 0, 1⟩⟩)
        ⟨⟨12, 0, 0⟩, ⟨0, 0, 0, 1⟩⟩
        ⟨btVector3.add ⟨0, 0, 0⟩ ⟨-1, 0, 0⟩, ⟨0, 0, 0, 1⟩⟩) ≠ 9 := by
  rw [scenario_distance (realMath (1 / 8388608)) Real.sqrt_zero _
    ⟨⟨12, 0, 0⟩, ⟨0, 0, 0, 1⟩⟩ ⟨⟨0, 0, 0⟩, ⟨0, 0, 0, 1⟩⟩ (-1)]
  norm_num

/-- C5, amended: in exact real arithmetic, for every starting pose of the two bodies, a
tracker with radii 1 and 1 seeded with distance 10 and normal `(1,0,0)` reports 10 after
one update in which only the origin of B moves by one unit along `-normal` (motion of B
along `-normal` counts as separating), and reports 9 when B moves by one unit along
`+normal` instead. -/
theorem scenario_end_to_end (eps : ℝ) (uninit : btConvexSeparatingDistanceUtil ℝ)
    (transA transB : b3Transform ℝ) :
    getConservativeSeparatingDistance
        (updateSeparatingDistance (realMath eps)
          (initSeparatingDistance (construct uninit 1 1) ⟨1, 0, 0⟩ 10 transA transB)
          transA ⟨btVector3.add transB.getOrigin ⟨-1, 0, 0⟩, transB.getRotation⟩) = 10
      ∧ getConservativeSeparatingDistance
        (updateSeparatingDistance (realMath eps)
          (initSeparatingDistance (construct uninit 1 1) ⟨1, 0, 0⟩ 10 transA transB)
          transA ⟨btVector3.add transB.getOrigin ⟨1, 0, 0⟩, transB.getRotation⟩) = 9 := by
  constructor
  · rw [scenario_distance (realMath eps) Real.sqrt_zero]; norm_num
  · rw [scenario_distance (realMath eps) Real.sqrt_zero]; norm_num

/-! ## Spherical interpolation -/

/-- The sine of the arc cosine of a number in `[0, 1)` is not zero. -/
theorem sin_arccos_ne_zero {x : ℝ} (h0 : 0 ≤ x) (h1 : x < 1) : Real.sin (Real.arccos x) ≠ 0 := by
  rw [Real.sin_arccos]
  have h : 0 < 1 - x ^ 2 := by nlinarith
  exact (Real.sqrt_pos.2 h).ne'

/-- The sign chosen by `slerp` turns the product into its absolute value. -/
theorem slerp_sign_mul (p : ℝ) : (if p < 0 then (-1 : ℝ) else 1) * p = |p| := by
  split_ifs with h
  · rw [abs_of_neg h]; ring
  · rw [abs_of_nonneg (not_lt.1 h)]; ring

/-- The value of `slerp` at `t = 0` is the receiver, whatever the other quaternion. -/
theorem slerp_at_zero (eps : ℝ) (q1 q2 : btQuaternion ℝ) :
    slerp (realMath eps) q1 q2 0 = q1 := by
  unfold slerp
  dsimp only [realMath, btFabs]
  by_cases h : |dot q1 q2 / Real.sqrt (length2 q1 * length2 q2)| < 1
  · rw [if_pos h, slerp_sign_mul]
    have hs := sin_arccos_ne_zero (abs_nonneg _) h
    ext <;> simp <;> field_simp
  · rw [if_neg h]

/-- The value of `slerp` at `t = 1`: the other quaternion up to the sign of the normalised dot
product, or the receiver when the colinear guard fires. -/
theorem slerp_at_one (eps : ℝ) (q1 q2 : btQuaternion ℝ) :
    slerp (realMath eps) q1 q2 1
      = if |dot q1 q2 / Real.sqrt (length2 q1 * length2 q2)| < 1 then
          (if dot q1 q2 / Real.sqrt (length2 q1 * length2 q2) < 0 then neg q2 else q2)
        else q1 := by
  unfold slerp
  dsimp only [realMath, btFabs]
  by_cases h : |dot q1 q2 / Real.sqrt (length2 q1 * length2 q2)| < 1
  · rw [if_pos h, if_pos h, slerp_sign_mul]
    have hs := sin_arccos_ne_zero (abs_nonneg _) h
    by_cases hneg : dot q1 q2 / Real.sqrt (length2 q1 * length2 q2) < 0
    · rw [if_pos hneg, if_pos hneg]
      ext <;> simp [neg, Real.sin_neg] <;> field_simp
    · rw [if_neg hneg, if_neg hneg]
      ext <;> simp <;> field_simp
  · rw [if_neg h, if_neg h]

/-- The squared length of a quaternion is not negative. -/
theorem length2_nonneg (q : btQuaternion α) : 0 ≤ length2 q := by
  simp only [length2, dot]
  have hx := mul_self_nonneg q.x
  have hy := mul_self_nonneg q.y
  have hz := mul_self_nonneg q.z
  have hw := mul_self_nonneg q.w
  linarith

/-- The squared length of a non-zero quaternion is positive. -/
theorem length2_pos_of_ne_zero (q : btQuaternion α) (hq : q ≠ ⟨0, 0, 0, 0⟩) : 0 < length2 q := by
  rcases (length2_nonneg q).lt_or_eq with h | h
  · exact h
  · exfalso
    apply hq
    simp only [length2, dot] at h
    have hx := mul_self_nonneg q.x
    have hy := mul_self_nonneg q.y
    have hz := mul_self_nonneg q.z
    have hw := mul_self_nonneg q.w
    ext
    · exact mul_self_eq_zero.1 (by linarith)
    · exact mul_self_eq_zero.1 (by linarith)
    · exact mul_self_eq_zero.1 (by linarith)
    · exact mul_self_eq_zero.1 (by linarith)

/-- Interpolating a non-zero quaternion with itself returns it: the colinear guard fires. -/
theorem slerp_self (eps : ℝ) (q : btQuaternion ℝ) (hq : q ≠ ⟨0, 0, 0, 0⟩) (t : ℝ) :
    slerp (realMath eps) q q t = q := by
  have hpos := length2_pos_of_ne_zero q hq
  unfold slerp
  dsimp only [realMath, btFabs]
  have hp : dot q q / Real.sqrt (length2 q * length2 q) = 1 := by
    rw [Real.sqrt_mul_self hpos.le]
    exact div_self hpos.ne'
  rw [hp]
  simp

/-- C9: `slerp(q1, q2, 0) = q1` for non-zero quaternions, and `slerp(q, q, t) = q` for every
non-zero `q` and every `t`: the colinear guard returns the receiver unchanged. -/
theorem slerp_start_and_fixed_point (eps : ℝ) (q1 q2 : btQuaternion ℝ)
    (hq1 : q1 ≠ ⟨0, 0, 0, 0⟩) (_hq2 : q2 ≠ ⟨0, 0, 0, 0⟩) (t : ℝ) :
    slerp (realMath eps) q1 q2 0 = q1 ∧ slerp (realMath eps) q1 q1 t = q1 :=
  ⟨slerp_at_zero eps q1 q2, slerp_self eps q1 hq1 t⟩

/-- Witness of C9 at `q1 = (0,0,0,1)`, `q2 = (0,0,1,0)` and `t = 1/3`. -/
theorem slerp_start_and_fixed_point_witness :
    slerp (realMath (1 / 8388608)) ⟨0, 0, 0, 1⟩ ⟨0, 0, 1, 0⟩ 0 = ⟨0, 0, 0, 1⟩
      ∧ slerp (realMath (1 / 8388608)) ⟨0, 0, 0, 1⟩ ⟨0, 0, 0, 1⟩ (1 / 3) = ⟨0, 0, 0, 1⟩ :=
  slerp_start_and_fixed_point (1 / 8388608) ⟨0, 0, 0, 1⟩ ⟨0, 0, 1, 0⟩
    (by simp) (by simp) (1 / 3)

/-- C8, counterexample: interpolating from the identity `(0,0,0,1)` to `(0,0,0,-1)` at
`t = 1` does not return `(0,0,0,-1)`: the colinear guard returns the receiver. -/
theorem slerp_one_not_end_point :
    slerp (realMath (1 / 8388608)) ⟨0, 0, 0, 1⟩ ⟨0, 0, 0, -1⟩ 1 ≠ ⟨0, 0, 0, -1⟩ := by
  rw [slerp_at_one]
  norm_num [dot, length2]

/-- C8, amended: for non-zero quaternions `q1`, `q2` with normalised dot product
`p = dot(q1,q2) / sqrt(length2(q1) * length2(q2))`, `slerp(q1, q2, 1)` is `q2` when
`0 <= p < 1`, is `-q2` when `-1 < p < 0` (the sign flip that takes the shorter arc), and is
the receiver `q1` when `|p| >= 1` (the colinear guard). -/
theorem slerp_end_point (eps : ℝ) (q1 q2 : btQuaternion ℝ)
    (_hq1 : q1 ≠ ⟨0, 0, 0, 0⟩) (_hq2 : q2 ≠ ⟨0, 0, 0, 0⟩) :
    slerp (realMath eps) q1 q2 1
      = if |dot q1 q2 / Real.sqrt (length2 q1 * length2 q2)| < 1 then
          (if dot q1 q2 / Real.sqrt (length2 q1 * length2 q2) < 0 then neg q2 else q2)
        else q1 :=
  slerp_at_one eps q1 q2

/-- Witness of C8 (amended) at `q1 = (0,0,0,1)`, `q2 = (0,0,1,0)`, whose normalised dot
product is zero: the end point is `q2`. -/
theorem slerp_end_point_witness :
    slerp (realMath (1 / 8388608)) ⟨0, 0, 0, 1⟩ ⟨0, 0, 1, 0⟩ 1 = ⟨0, 0, 1, 0⟩ := by
  rw [slerp_end_point (1 / 8388608) ⟨0, 0, 0, 1⟩ ⟨0, 0, 1, 0⟩ (by simp) (by simp)]
  norm_num [dot, length2]

/-! ## Conservativeness of the separating-distance update -/

/-- A quaternion and its negative rotate vectors alike. -/
theorem quatRotate_neg (q : btQuaternion α) (v : btVector3 α) :
    quatRotate (neg q) v = quatRotate q v := by
  ext <;>
    simp only [quatRotate, neg, btQuaternion_multiplyQuat,
      btQuaternion_makeQuatVector3Multiplication, inverse] <;>
    ring

/-- The squared length of a rotated vector. -/
theorem quatRotate_length2 (q : btQuaternion α) (v : btVector3 α) :
    btVector3.length2 (quatRotate q v) = length2 q ^ 2 * btVector3.length2 v := by
  simp only [quatRotate, btQuaternion_multiplyQuat, btQuaternion_makeQuatVector3Multiplication,
    inverse, btVector3.length2, btVector3.dot, length2, dot]
  ring

/-- The quaternion norm is multiplicative. -/
theorem length2_mul (q1 q2 : btQuaternion α) :
    length2 (btQuaternion_makeQuatMultiplication q1 q2) = length2 q1 * length2 q2 := by
  simp only [btQuaternion_makeQuatMultiplication, length2, dot]
  ring

/-- The conjugate has the same squared length. -/
theorem length2_inverse (q : btQuaternion α) : length2 (inverse q) = length2 q := by
  simp only [inverse, length2, dot]
  ring

/-- The negative has the same squared length. -/
theorem length2_neg (q : btQuaternion α) : length2 (neg q) = length2 q := by
  simp only [neg, length2, dot]
  ring

/-- Multiplying `q1 * inverse(q0)` back by a unit `q0` gives `q1`. -/
theorem mul_inverse_mul_cancel (q1 q0 : btQuaternion α) (h0 : length2 q0 = 1) :
    btQuaternion_makeQuatMultiplication
      (btQuaternion_makeQuatMultiplication q1 (inverse q0)) q0 = q1 := by
  simp only [length2, dot] at h0
  ext <;> simp only [btQuaternion_makeQuatMultiplication, inverse]
  · linear_combination q1.x * h0
  · linear_combination q1.y * h0
  · linear_combination q1.z * h0
  · linear_combination q1.w * h0

/-- How far a quaternion moves a vector, for any norm: the squared distance between the
rotated vector and the vector scaled by the squared norm. -/
theorem quatRotate_displacement_general (q : btQuaternion α) (y : btVector3 α) :
    btVector3.length2 (btVector3.sub (quatRotate q y) (btVector3.scale y (length2 q)))
      = 4 * (btVector3.length2 ⟨q.x, q.y, q.z⟩ * btVector3.length2 y
          - (btVector3.dot ⟨q.x, q.y, q.z⟩ y) ^ 2) * length2 q := by
  simp only [quatRotate, btQuaternion_multiplyQuat, btQuaternion_makeQuatVector3Multiplication,
    inverse, btVector3.length2, btVector3.dot, btVector3.sub, btVector3.scale, length2, dot]
  ring

/-- Scaling a vector by one leaves it unchanged. -/
theorem vec_scale_one (y : btVector3 α) : btVector3.scale y 1 = y := by
  ext <;> simp [btVector3.scale]

/-- How far a unit quaternion moves a vector: the squared displacement is at most
`4 * (1 - w^2)` times the squared length of the vector. -/
theorem quatRotate_displacement_le (q : btQuaternion α) (y : btVector3 α) (hq : length2 q = 1) :
    btVector3.length2 (btVector3.sub (quatRotate q y) y)
      ≤ 4 * (1 - q.w ^ 2) * btVector3.length2 y := by
  have h := quatRotate_displacement_general q y
  rw [hq, vec_scale_one, mul_one] at h
  rw [h]
  have hv : btVector3.length2 (⟨q.x, q.y, q.z⟩ : btVector3 α) = 1 - q.w ^ 2 := by
    simp only [length2, dot] at hq
    simp only [btVector3.length2, btVector3.dot]
    linear_combination hq
  rw [hv]
  nlinarith [sq_nonneg (btVector3.dot ⟨q.x, q.y, q.z⟩ y)]

/-- Cauchy-Schwarz for 3-vectors. -/
theorem vec_dot_sq_le (n u : btVector3 α) :
    (btVector3.dot n u) ^ 2 ≤ btVector3.length2 n * btVector3.length2 u := by
  have h : btVector3.length2 n * btVector3.length2 u - (btVector3.dot n u) ^ 2
      = btVector3.length2 (btVector3.cross n u) := by
    simp only [btVector3.length2, btVector3.dot, btVector3.cross]
    ring
  have h2 : 0 ≤ btVector3.length2 (btVector3.cross n u) := by
    simp only [btVector3.length2, btVector3.dot]
    have h1 := mul_self_nonneg (btVector3.cross n u).x
    have h2 := mul_self_nonneg (btVector3.cross n u).y
    have h3 := mul_self_nonneg (btVector3.cross n u).z
    linarith
  linarith

/-- The projection of a vector on a unit vector is at most its length. -/
theorem abs_dot_le_length (eps : ℝ) (n u : btVector3 ℝ) (hn : btVector3.length2 n = 1) :
    |btVector3.dot n u| ≤ btVector3.length (realMath eps) u := by
  have h := vec_dot_sq_le n u
  rw [hn, one_mul] at h
  exact Real.abs_le_sqrt h

/-- The length of a unit axis scaled by a non-negative angle over the unit time step. -/
theorem length_axis_angle (eps : ℝ) (a : btVector3 ℝ) (c : ℝ) (ha : btVector3.length2 a = 1)
    (hc : 0 ≤ c) :
    btVector3.length (realMath eps) (btVector3.divide (btVector3.scale a c) 1) = c := by
  have h : btVector3.length2 (btVector3.divide (btVector3.scale a c) 1) = c ^ 2 := by
    simp only [btVector3.length2, btVector3.dot] at ha
    simp only [btVector3.length2, btVector3.dot, btVector3.divide, btVector3.scale, div_one]
    linear_combination c ^ 2 * ha
  simp only [btVector3.length, realMath]
  rw [h]
  exact Real.sqrt_sq hc

/-- A vector of positive squared length divided by its length is a unit vector. -/
theorem length2_divide_sqrt (v : btVector3 ℝ) (hv : 0 < btVector3.length2 v) :
    btVector3.length2 (btVector3.divide v (Real.sqrt (btVector3.length2 v))) = 1 := by
  have hs : Real.sqrt (btVector3.length2 v) ≠ 0 := (Real.sqrt_pos.2 hv).ne'
  have hsq : Real.sqrt (btVector3.length2 v) * Real.sqrt (btVector3.length2 v)
      = btVector3.length2 v := Real.mul_self_sqrt hv.le
  have h : btVector3.length2 (btVector3.divide v (Real.sqrt (btVector3.length2 v)))
      = btVector3.length2 v
        / (Real.sqrt (btVector3.length2 v) * Real.sqrt (btVector3.length2 v)) := by
    simp only [btVector3.length2, btVector3.dot, btVector3.divide]
    field_simp
  rw [h, hsq]
  exact div_self hv.ne'

/-- The length of the angular velocity returned by `calculateVelocityQuaternion` over the unit
interval: the angle of `nearest(orn1) * inverse(orn0)` when the orientations differ. -/
theorem length_angVel (eps : ℝ) (heps : 0 < eps) (pos0 pos1 : b3Vector3 ℝ)
    (orn0 orn1 : b3Quaternion ℝ) (hne : orn0 ≠ orn1) :
    btVector3.length (realMath eps)
        (calculateVelocityQuaternion (realMath eps) pos0 pos1 orn0 orn1 1).2
      = 2 * Real.arccos
          (btQuaternion_makeQuatMultiplication (nearest orn0 orn1) (inverse orn0)).w := by
  have hang : 0 ≤ 2 * Real.arccos
      (btQuaternion_makeQuatMultiplication (nearest orn0 orn1) (inverse orn0)).w := by
    have := Real.arccos_nonneg
      (btQuaternion_makeQuatMultiplication (nearest orn0 orn1) (inverse orn0)).w
    linarith
  unfold calculateVelocityQuaternion calculateDiffAxisAngleQuaternion
  simp only [hne, ne_eq, not_false_eq_true, if_true, getAngle]
  by_cases hlen : btVector3.length2
      (⟨(btQuaternion_makeQuatMultiplication (nearest orn0 orn1) (inverse orn0)).x,
        (btQuaternion_makeQuatMultiplication (nearest orn0 orn1) (inverse orn0)).y,
        (btQuaternion_makeQuatMultiplication (nearest orn0 orn1) (inverse orn0)).z⟩ :
          btVector3 ℝ) < (realMath eps).SIMD_EPSILON * (realMath eps).SIMD_EPSILON
  · rw [if_pos hlen]
    exact length_axis_angle eps ⟨1, 0, 0⟩ _ (by simp [btVector3.length2, btVector3.dot]) hang
  · rw [if_neg hlen]
    have hpos : 0 < btVector3.length2
        (⟨(btQuaternion_makeQuatMultiplication (nearest orn0 orn1) (inverse orn0)).x,
          (btQuaternion_makeQuatMultiplication (nearest orn0 orn1) (inverse orn0)).y,
          (btQuaternion_makeQuatMultiplication (nearest orn0 orn1) (inverse orn0)).z⟩ :
            btVector3 ℝ) :=
      lt_of_lt_of_le (mul_pos heps heps) (not_lt.1 hlen)
    exact length_axis_angle eps _ _ (length2_divide_sqrt _ hpos) hang

/-- The chord bound: `1 - w^2` is at most the square of the arc cosine of `w`. -/
theorem one_sub_sq_le_arccos_sq (w : ℝ) : 1 - w ^ 2 ≤ Real.arccos w ^ 2 := by
  by_cases h : 0 ≤ 1 - w ^ 2
  · have h1 : Real.sqrt (1 - w ^ 2) ≤ Real.arccos w := by
      rw [← Real.sin_arccos]
      exact Real.sin_le (Real.arccos_nonneg w)
    calc 1 - w ^ 2 = Real.sqrt (1 - w ^ 2) ^ 2 := (Real.sq_sqrt h).symm
      _ ≤ Real.arccos w ^ 2 := pow_le_pow_left₀ (Real.sqrt_nonneg _) h1 2
  · have := sq_nonneg (Real.arccos w)
    linarith

/-- The member `nearest` keeps the squared length. -/
theorem length2_nearest (q qd : btQuaternion α) : length2 (nearest q qd) = length2 qd := by
  unfold nearest; dsimp only
  split_ifs
  · rfl
  · exact length2_neg qd

/-- The member `nearest` returns a quaternion that rotates vectors like its argument. -/
theorem quatRotate_nearest (q qd : btQuaternion α) (v : btVector3 α) :
    quatRotate (nearest q qd) v = quatRotate qd v := by
  unfold nearest; dsimp only
  split_ifs
  · rfl
  · exact quatRotate_neg qd v

/-- The squared length of a 3-vector is not negative. -/
theorem vec_length2_nonneg (v : btVector3 α) : 0 ≤ btVector3.length2 v := by
  simp only [btVector3.length2, btVector3.dot]
  have hx := mul_self_nonneg v.x
  have hy := mul_self_nonneg v.y
  have hz := mul_self_nonneg v.z
  linarith

/-- The angular part of the bound: a point within distance `r` of the reference point of a body
moves along a unit direction `n` by at most `|angVel| * r` when the orientation of the body
changes from `orn0` to `orn1`, the angular velocity being that of
`calculateVelocityQuaternion` over the unit time step. -/
theorem rotation_projection_bound (eps : ℝ) (heps : 0 < eps) (pos0 pos1 : b3Vector3 ℝ)
    (orn0 orn1 : b3Quaternion ℝ) (h0 : length2 orn0 = 1) (h1 : length2 orn1 = 1)
    (n x : btVector3 ℝ) (hn : btVector3.length2 n = 1) (r : ℝ)
    (hx : btVector3.length (realMath eps) x ≤ r) :
    |btVector3.dot n (btVector3.sub (quatRotate orn1 x) (quatRotate orn0 x))|
      ≤ btVector3.length (realMath eps)
          (calculateVelocityQuaternion (realMath eps) pos0 pos1 orn0 orn1 1).2 * r := by
  by_cases hne : orn0 = orn1
  · subst hne
    rw [calculateVelocityQuaternion_same_orn]
    simp [btVector3.length, btVector3.length2, btVector3.dot, btVector3.sub, realMath]
  · rw [length_angVel eps heps pos0 pos1 orn0 orn1 hne]
    have hd : length2 (btQuaternion_makeQuatMultiplication (nearest orn0 orn1) (inverse orn0))
        = 1 := by
      rw [length2_mul, length2_inverse, length2_nearest, h0, h1, mul_one]
    have hcomp : quatRotate orn1 x
        = quatRotate (btQuaternion_makeQuatMultiplication (nearest orn0 orn1) (inverse orn0))
            (quatRotate orn0 x) := by
      rw [← quatRotate_comp, mul_inverse_mul_cancel _ _ h0, quatRotate_nearest]
    have hy : btVector3.length2 (quatRotate orn0 x) = btVector3.length2 x := by
      rw [quatRotate_length2, h0]; ring
    rw [hcomp]
    have hb1 := abs_dot_le_length eps n
      (btVector3.sub
        (quatRotate (btQuaternion_makeQuatMultiplication (nearest orn0 orn1) (inverse orn0))
          (quatRotate orn0 x))
        (quatRotate orn0 x)) hn
    have hb2 := quatRotate_displacement_le
      (btQuaternion_makeQuatMultiplication (nearest orn0 orn1) (inverse orn0))
      (quatRotate orn0 x) hd
    rw [hy] at hb2
    have hr : 0 ≤ r := le_trans (Real.sqrt_nonneg _) hx
    have hx2 : btVector3.length2 x ≤ r ^ 2 := (Real.sqrt_le_left hr).1 hx
    have hL := vec_length2_nonneg x
    have hacos := Real.arccos_nonneg
      (btQuaternion_makeQuatMultiplication (nearest orn0 orn1) (inverse orn0)).w
    have hchord := one_sub_sq_le_arccos_sq
      (btQuaternion_makeQuatMultiplication (nearest orn0 orn1) (inverse orn0)).w
    refine le_trans hb1 ?_
    simp only [btVector3.length, realMath]
    rw [Real.sqrt_le_left (mul_nonneg (by linarith) hr)]
    refine le_trans hb2 ?_
    have h3 := mul_le_mul_of_nonneg_right hchord hL
    have h4 := mul_le_mul_of_nonneg_left hx2 (sq_nonneg (Real.arccos
      (btQuaternion_makeQuatMultiplication (nearest orn0 orn1) (inverse orn0)).w))
    nlinarith

/-- The linear velocity returned by `calculateVelocityQuaternion` over the unit time step is
the position difference. -/
theorem calculateVelocityQuaternion_linVel (M : btScalarMath α) (pos0 pos1 : b3Vector3 α)
    (orn0 orn1 : b3Quaternion α) :
    (calculateVelocityQuaternion M pos0 pos1 orn0 orn1 1).1 = btVector3.sub pos1 pos0 := by
  unfold calculateVelocityQuaternion
  split_ifs <;> simp [btVector3.divide]

/-- C1: conservativeness of `updateSeparatingDistance` in exact real arithmetic.  For a
tracker with radii `rA, rB >= 0`, a stored unit normal `n`, a stored distance `d > 0` and
unit baseline orientations, if every pair of local points `xA`, `xB` with `|xA| <= rA`,
`|xB| <= rB` is separated along `n` by at least `d` at the baseline poses, then after the
update to any new poses with unit orientations every such pair is separated along `n` by at
least the new stored distance. -/
theorem updateSeparatingDistance_conservative (eps : ℝ) (heps : 0 < eps)
    (s : btConvexSeparatingDistanceUtil ℝ) (transA transB : b3Transform ℝ)
    (_hrA : 0 ≤ s.m_boundingRadiusA) (_hrB : 0 ≤ s.m_boundingRadiusB)
    (hn : btVector3.length2 s.m_separatingNormal = 1)
    (hd : 0 < s.m_separatingDistance)
    (hqA : length2 s.m_ornA = 1) (hqB : length2 s.m_ornB = 1)
    (hqA' : length2 transA.getRotation = 1) (hqB' : length2 transB.getRotation = 1)
    (hsep : ∀ xA xB : btVector3 ℝ,
      btVector3.length (realMath eps) xA ≤ s.m_boundingRadiusA →
      btVector3.length (realMath eps) xB ≤ s.m_boundingRadiusB →
      s.m_separatingDistance ≤ btVector3.dot s.m_separatingNormal
        (btVector3.sub (btVector3.add s.m_posA (quatRotate s.m_ornA xA))
          (btVector3.add s.m_posB (quatRotate s.m_ornB xB))))
    (xA xB : btVector3 ℝ)
    (hxA : btVector3.length (realMath eps) xA ≤ s.m_boundingRadiusA)
    (hxB : btVector3.length (realMath eps) xB ≤ s.m_boundingRadiusB) :
    (updateSeparatingDistance (realMath eps) s transA transB).m_separatingDistance
      ≤ btVector3.dot s.m_separatingNormal
          (btVector3.sub (btVector3.add transA.getOrigin (quatRotate transA.getRotation xA))
            (btVector3.add transB.getOrigin (quatRotate transB.getRotation xB))) := by
  rw [updateSeparatingDistance_armed _ _ _ _ hd, calculateVelocityQuaternion_linVel,
    calculateVelocityQuaternion_linVel]
  have hA := abs_le.1 (rotation_projection_bound eps heps s.m_posA transA.getOrigin s.m_ornA
    transA.getRotation hqA hqA' s.m_separatingNormal xA hn s.m_boundingRadiusA hxA)
  have hB := abs_le.1 (rotation_projection_bound eps heps s.m_posB transB.getOrigin s.m_ornB
    transB.getRotation hqB hqB' s.m_separatingNormal xB hn s.m_boundingRadiusB hxB)
  have hold := hsep xA xB hxA hxB
  have hmax := le_max_right 0 (btVector3.dot
    (btVector3.sub (btVector3.sub transB.getOrigin s.m_posB)
      (btVector3.sub transA.getOrigin s.m_posA)) s.m_separatingNormal)
  simp only [btVector3.dot, btVector3.sub, btVector3.add] at hA hB hold hmax ⊢
  linarith [hA.1, hA.2, hB.1, hB.2]

/-- The first coordinate of a vector of length at most one lies between `-1` and `1`. -/
theorem abs_x_le_one_of_length_le (eps : ℝ) (v : btVector3 ℝ)
    (h : btVector3.length (realMath eps) v ≤ 1) : -1 ≤ v.x ∧ v.x ≤ 1 := by
  have h2 : btVector3.length2 v ≤ 1 ^ 2 := (Real.sqrt_le_left (by norm_num)).1 h
  simp only [btVector3.length2, btVector3.dot] at h2
  have hy := mul_self_nonneg v.y
  have hz := mul_self_nonneg v.z
  constructor <;> nlinarith

/-- Witness of C1: unit balls around A at `(12,0,0)` and B at the origin, both at identity
orientation, are separated by 10 along `(1,0,0)`; B then moves to `(3,0,0)` and turns by a
half turn about the z axis while A rests.  The points `xA = (-1,0,0)` and `xB = (1,0,0)` stay
separated by at least the updated distance. -/
theorem updateSeparatingDistance_conservative_witness :
    (updateSeparatingDistance (realMath (1 / 8388608))
        ⟨⟨0, 0, 0, 1⟩, ⟨0, 0, 0, 1⟩, ⟨12, 0, 0⟩, ⟨0, 0, 0⟩, ⟨1, 0, 0⟩, 1, 1, 10⟩
        ⟨⟨12, 0, 0⟩, ⟨0, 0, 0, 1⟩⟩ ⟨⟨3, 0, 0⟩, ⟨0, 0, 1, 0⟩⟩).m_separatingDistance
      ≤ btVector3.dot ⟨1, 0, 0⟩
          (btVector3.sub (btVector3.add ⟨12, 0, 0⟩ (quatRotate ⟨0, 0, 0, 1⟩ ⟨-1, 0, 0⟩))
            (btVector3.add ⟨3, 0, 0⟩ (quatRotate ⟨0, 0, 1, 0⟩ ⟨1, 0, 0⟩))) :=
  updateSeparatingDistance_conservative (1 / 8388608) (by norm_num)
    ⟨⟨0, 0, 0, 1⟩, ⟨0, 0, 0, 1⟩, ⟨12, 0, 0⟩, ⟨0, 0, 0⟩, ⟨1, 0, 0⟩, 1, 1, 10⟩
    ⟨⟨12, 0, 0⟩, ⟨0, 0, 0, 1⟩⟩ ⟨⟨3, 0, 0⟩, ⟨0, 0, 1, 0⟩⟩
    (by norm_num) (by norm_num)
    (by norm_num [btVector3.length2, btVector3.dot])
    (by norm_num)
    (by norm_num [length2, dot]) (by norm_num [length2, dot])
    (by norm_num [length2, dot]) (by norm_num [length2, dot])
    (by
      intro xA xB hA hB
      have h1 := abs_x_le_one_of_length_le _ xA hA
      have h2 := abs_x_le_one_of_length_le _ xB hB
      simp only [btVector3.dot, btVector3.sub, btVector3.add, quatRotate,
        btQuaternion_multiplyQuat, btQuaternion_makeQuatVector3Multiplication, inverse]
      linarith [h1.1, h2.2])
    ⟨-1, 0, 0⟩ ⟨1, 0, 0⟩
    (by simp [btVector3.length, btVector3.length2, btVector3.dot, realMath])
    (by simp [btVector3.length, btVector3.length2, btVector3.dot, realMath])

/-! ## The angular clamp of `integrateTransform` -/

/-- The scalar part of `(d * q) * inverse(q)` is the scalar part of `d` times the squared
length of `q`. -/
theorem mul_mul_inverse_w (d q : btQuaternion α) :
    (btQuaternion_makeQuatMultiplication (btQuaternion_makeQuatMultiplication d q) (inverse q)).w
      = d.w * length2 q := by
  simp only [btQuaternion_makeQuatMultiplication, inverse, length2, dot]
  ring

/-- Dividing the left factor of a product by a scalar divides the scalar part of the product. -/
theorem mul_divide_w (p q : btQuaternion α) (c : α) :
    (btQuaternion_makeQuatMultiplication (divide p c) q).w
      = (btQuaternion_makeQuatMultiplication p q).w / c := by
  simp only [btQuaternion_makeQuatMultiplication, divide]
  ring

/-- An angle in `[0, pi]` whose cosine is above `w >= -1` is below the arc cosine of `w`. -/
theorem lt_arccos_of_lt_cos {phi w : ℝ} (h0 : 0 ≤ phi) (hpi : phi ≤ Real.pi) (hw : -1 ≤ w)
    (h : w < Real.cos phi) : phi < Real.arccos w := by
  have hlt := Real.strictAntiOn_arccos ⟨hw, h.le.trans (Real.cos_le_one phi)⟩
    ⟨Real.neg_one_le_cos phi, Real.cos_le_one phi⟩ h
  rwa [Real.arccos_cos h0 hpi] at hlt

/-- Whenever the clamp of `integrateTransform` fires and the exact (non-Taylor) branch is
taken, the rotation from the current to the predicted orientation exceeds
`ANGULAR_MOTION_THRESHOLD`: the axis is built from the unclamped angular velocity, and the
normalisation of the product turns the surplus length into a larger angle. -/
theorem integrateTransform_clamped_angle (eps : ℝ) (curTrans : b3Transform ℝ)
    (linvel angvel : b3Vector3 ℝ) (timeStep : ℝ) (ht : 0 < timeStep)
    (hq : length2 curTrans.getRotation = 1)
    (hclamp : ANGULAR_MOTION_THRESHOLD (realMath eps)
      < btVector3.length (realMath eps) angvel * timeStep)
    (hexact : 0.001 ≤ ANGULAR_MOTION_THRESHOLD (realMath eps) / timeStep) :
    ANGULAR_MOTION_THRESHOLD (realMath eps)
      < getAngle (realMath eps)
          (btQuaternion_makeQuatMultiplication
            (integrateTransform (realMath eps) curTrans linvel angvel timeStep).getRotation
            (inverse curTrans.getRotation)) := by
  have hpi3 := Real.pi_gt_three
  have hpi4 := Real.pi_le_four
  simp only [ANGULAR_MOTION_THRESHOLD, realMath, btVector3.length] at hclamp hexact
  unfold integrateTransform
  simp only [realMath, ANGULAR_MOTION_THRESHOLD, btVector3.length, gt_iff_lt, hclamp, if_true,
    not_lt.2 hexact, if_false, getAngle, btQuaternion.normalize, btQuaternion.length,
    mul_divide_w, mul_mul_inverse_w, length2_mul, hq, mul_one, btVector3.scale]
  have e1 : (0.5 : ℝ) * (0.5 * (Real.pi / 2) / timeStep) * timeStep = Real.pi / 8 := by
    field_simp; ring
  have e2 : (0.5 : ℝ) * (Real.pi / 2) / timeStep * timeStep * 0.5 = Real.pi / 8 := by
    field_simp; ring
  rw [e1, e2]
  have hs : 0 < Real.sin (Real.pi / 8) :=
    Real.sin_pos_of_pos_of_lt_pi (by linarith) (by linarith)
  have hc : 0 < Real.cos (Real.pi / 8) :=
    Real.cos_pos_of_mem_Ioo ⟨by linarith, by linarith⟩
  have hsc := Real.sin_sq_add_cos_sq (Real.pi / 8)
  have hT : 0 < 0.5 * (Real.pi / 2) / timeStep := div_pos (by linarith) ht
  have hW : 0.5 * (Real.pi / 2) / timeStep < Real.sqrt (btVector3.length2 angvel) := by
    rw [div_lt_iff₀ ht]; exact hclamp
  have hWsq : Real.sqrt (btVector3.length2 angvel) * Real.sqrt (btVector3.length2 angvel)
      = btVector3.length2 angvel := Real.mul_self_sqrt (vec_length2_nonneg angvel)
  have hk : Real.sin (Real.pi / 8) / (0.5 * (Real.pi / 2) / timeStep)
      * (0.5 * (Real.pi / 2) / timeStep) = Real.sin (Real.pi / 8) := div_mul_cancel₀ _ hT.ne'
  have hk0 : 0 < Real.sin (Real.pi / 8) / (0.5 * (Real.pi / 2) / timeStep) := div_pos hs hT
  revert hk hk0 hW hWsq
  generalize Real.sin (Real.pi / 8) / (0.5 * (Real.pi / 2) / timeStep) = k
  generalize 0.5 * (Real.pi / 2) / timeStep = T at hT ⊢
  generalize Real.sqrt (btVector3.length2 angvel) = W
  generalize hsdef : Real.sin (Real.pi / 8) = sn at hs hsc ⊢
  generalize hcdef : Real.cos (Real.pi / 8) = c at hc hsc ⊢
  intro hW hWsq hk hk0
  have hWk : sn < W * k := by nlinarith
  have hlen : length2 (⟨angvel.x * k, angvel.y * k, angvel.z * k, c⟩ : btQuaternion ℝ)
      = (W * k) ^ 2 + c ^ 2 := by
    rw [mul_pow, sq W, hWsq]
    simp only [length2, dot, btVector3.length2, btVector3.dot]
    ring
  rw [hlen]
  have hnorm : 1 < Real.sqrt ((W * k) ^ 2 + c ^ 2) := by
    rw [Real.lt_sqrt (by norm_num)]
    nlinarith
  have hw : c / Real.sqrt ((W * k) ^ 2 + c ^ 2) < c := by
    rw [div_lt_iff₀ (by linarith)]
    nlinarith
  have hw0 : 0 < c / Real.sqrt ((W * k) ^ 2 + c ^ 2) := div_pos hc (by linarith)
  have hw1 : c / Real.sqrt ((W * k) ^ 2 + c ^ 2) < Real.cos (Real.pi / 8) := by
    rw [hcdef]; exact hw
  have hlt := lt_arccos_of_lt_cos (by linarith) (by linarith) (by linarith) hw1
  linarith

/-- C4, the code at the failing input: from the identity pose, with angular velocity
`(100,0,0)` and time step 1, the angle `2*acos(w)` of `predicted * inverse(current)` exceeds
`ANGULAR_MOTION_THRESHOLD`. -/
theorem integrateTransform_clamp_exceeded :
    ANGULAR_MOTION_THRESHOLD (realMath (1 / 8388608))
      < getAngle (realMath (1 / 8388608))
          (btQuaternion_makeQuatMultiplication
            (integrateTransform (realMath (1 / 8388608)) ⟨⟨0, 0, 0⟩, ⟨0, 0, 0, 1⟩⟩ ⟨0, 0, 0⟩
              ⟨100, 0, 0⟩ 1).getRotation
            (inverse ⟨0, 0, 0, 1⟩)) := by
  have hpi3 := Real.pi_gt_three
  have hpi4 := Real.pi_le_four
  have hlen : Real.sqrt ((100 : ℝ) * 100 + 0 * 0 + 0 * 0) = 100 := by
    rw [show (100 : ℝ) * 100 + 0 * 0 + 0 * 0 = 100 ^ 2 by norm_num]
    exact Real.sqrt_sq (by norm_num)
  refine integrateTransform_clamped_angle (1 / 8388608) ⟨⟨0, 0, 0⟩, ⟨0, 0, 0, 1⟩⟩ ⟨0, 0, 0⟩
    ⟨100, 0, 0⟩ 1 (by norm_num) (by norm_num [length2, dot]) ?_ ?_
  · simp only [ANGULAR_MOTION_THRESHOLD, realMath, btVector3.length, btVector3.length2,
      btVector3.dot, hlen]
    norm_num; linarith
  · simp only [ANGULAR_MOTION_THRESHOLD, realMath]
    norm_num; linarith

/-! ## Rotation of vectors -/

/-- C11: for every unit quaternion `q` and every 3-vector `v`, `quatRotate(q, v)` has the
same Euclidean length as `v` (the same squared length, hence the same length whatever the
square root). -/
theorem quatRotate_preserves_length (M : btScalarMath α) (q : btQuaternion α) (v : btVector3 α)
    (hq : length2 q = 1) :
    btVector3.length2 (quatRotate q v) = btVector3.length2 v
      ∧ btVector3.length M (quatRotate q v) = btVector3.length M v := by
  have h : btVector3.length2 (quatRotate q v) = btVector3.length2 v := by
    rw [quatRotate_length2, hq]; ring
  exact ⟨h, by simp only [btVector3.length, h]⟩

/-- Witness of C11 at the unit quaternion `(3/5, 0, 0, 4/5)` and the vector `(1, 2, 3)`. -/
theorem quatRotate_preserves_length_witness :
    btVector3.length2 (quatRotate (⟨3 / 5, 0, 0, 4 / 5⟩ : btQuaternion ℝ) ⟨1, 2, 3⟩)
        = btVector3.length2 (⟨1, 2, 3⟩ : btVector3 ℝ)
      ∧ btVector3.length (realMath (1 / 8388608))
          (quatRotate (⟨3 / 5, 0, 0, 4 / 5⟩ : btQuaternion ℝ) ⟨1, 2, 3⟩)
        = btVector3.length (realMath (1 / 8388608)) (⟨1, 2, 3⟩ : btVector3 ℝ) :=
  quatRotate_preserves_length (realMath (1 / 8388608)) ⟨3 / 5, 0, 0, 4 / 5⟩ ⟨1, 2, 3⟩
    (by norm_num [length2, dot])

/-! ## Axis-angle construction -/

/-- The square of the real length of a 3-vector is its squared length. -/
theorem vec_length_mul_self (eps : ℝ) (v : btVector3 ℝ) :
    btVector3.length (realMath eps) v * btVector3.length (realMath eps) v
      = btVector3.length2 v :=
  Real.mul_self_sqrt (vec_length2_nonneg v)

/-- For an axis of non-zero length the assertion of `btQuaternion_setRotation` holds and the
result is the axis-angle quaternion of the specification. -/
theorem setRotation_eq (eps : ℝ) (axis : btVector3 ℝ) (angle : ℝ)
    (h : btVector3.length (realMath eps) axis ≠ 0) :
    btQuaternion_setRotation (realMath eps) axis angle
      = some (axisAngleQuaternion (realMath eps) axis angle) := by
  unfold btQuaternion_setRotation
  simp only [h, ne_eq, not_false_eq_true, if_true, axisAngleQuaternion, btVector3.divide,
    btVector3.scale]
  have e : angle * 0.5 = angle / 2 := by norm_num; ring
  rw [e]
  congr 1
  ext <;> simp only [realMath] <;> ring

/-- The axis-angle quaternion of an axis of non-zero length has unit norm. -/
theorem axisAngleQuaternion_unit (eps : ℝ) (axis : btVector3 ℝ) (angle : ℝ)
    (h : btVector3.length (realMath eps) axis ≠ 0) :
    length2 (axisAngleQuaternion (realMath eps) axis angle) = 1 := by
  have hd := vec_length_mul_self eps axis
  have hsc := Real.sin_sq_add_cos_sq (angle / 2)
  simp only [btVector3.length2, btVector3.dot] at hd
  simp only [axisAngleQuaternion, btVector3.divide, btVector3.scale, length2, dot]
  simp only [realMath] at h hd ⊢
  field_simp
  nlinarith [hd, hsc]

/-- Scaling a vector by a positive factor scales its real length by that factor. -/
theorem vec_length_scale (eps : ℝ) (v : btVector3 ℝ) (k : ℝ) (hk : 0 < k) :
    btVector3.length (realMath eps) (btVector3.scale v k)
      = k * btVector3.length (realMath eps) v := by
  have h : btVector3.length2 (btVector3.scale v k) = k ^ 2 * btVector3.length2 v := by
    simp only [btVector3.length2, btVector3.dot, btVector3.scale]; ring
  simp only [btVector3.length, realMath]
  rw [h, Real.sqrt_mul (sq_nonneg k), Real.sqrt_sq hk.le]

/-- The result of `btQuaternion_setRotation` does not change when the axis is scaled by a
positive factor. -/
theorem setRotation_scale (eps : ℝ) (axis : btVector3 ℝ) (angle k : ℝ) (hk : 0 < k)
    (h : btVector3.length (realMath eps) axis ≠ 0) :
    btQuaternion_setRotation (realMath eps) (btVector3.scale axis k) angle
      = btQuaternion_setRotation (realMath eps) axis angle := by
  have hk' : k * btVector3.length (realMath eps) axis ≠ 0 := mul_ne_zero hk.ne' h
  unfold btQuaternion_setRotation
  simp only [vec_length_scale eps axis k hk, h, hk', ne_eq, not_false_eq_true, if_true]
  congr 1
  ext <;> simp only [btVector3.scale] <;> field_simp <;> ring

/-- C12: axis-angle construction normalises its axis.  For every axis of non-zero length and
every angle, `btQuaternion_setRotation` passes its assertion and yields
`((axis/|axis|) * sin(angle/2), cos(angle/2))`, which has unit norm and is unchanged when the
axis is scaled by any positive factor; for an axis of length exactly zero the assertion
`btAssert(d != 0)` fails. -/
theorem setRotation_normalises_axis (eps : ℝ) (axis : btVector3 ℝ) (angle : ℝ) :
    (btVector3.length (realMath eps) axis ≠ 0 →
        btQuaternion_setRotation (realMath eps) axis angle
            = some (axisAngleQuaternion (realMath eps) axis angle)
          ∧ length2 (axisAngleQuaternion (realMath eps) axis angle) = 1
          ∧ ∀ k : ℝ, 0 < k →
              btQuaternion_setRotation (realMath eps) (btVector3.scale axis k) angle
                = btQuaternion_setRotation (realMath eps) axis angle)
      ∧ (btVector3.length (realMath eps) axis = 0 →
          btQuaternion_setRotation (realMath eps) axis angle = none) := by
  refine ⟨fun h => ⟨setRotation_eq eps axis angle h, axisAngleQuaternion_unit eps axis angle h,
    fun k hk => setRotation_scale eps axis angle k hk h⟩, fun h => ?_⟩
  unfold btQuaternion_setRotation
  simp [h]

/-- Witness of C12: the axis `(0,0,2)` with angle 1 is accepted and normalised, and the zero
axis is rejected by the assertion. -/
theorem setRotation_normalises_axis_witness :
    (btQuaternion_setRotation (realMath (1 / 8388608)) ⟨0, 0, 2⟩ 1
          = some (axisAngleQuaternion (realMath (1 / 8388608)) ⟨0, 0, 2⟩ 1)
        ∧ length2 (axisAngleQuaternion (realMath (1 / 8388608)) ⟨0, 0, 2⟩ 1) = 1
        ∧ ∀ k : ℝ, 0 < k →
            btQuaternion_setRotation (realMath (1 / 8388608)) (btVector3.scale ⟨0, 0, 2⟩ k) 1
              = btQuaternion_setRotation (realMath (1 / 8388608)) ⟨0, 0, 2⟩ 1)
      ∧ btQuaternion_setRotation (realMath (1 / 8388608)) ⟨0, 0, 0⟩ 1 = none :=
  ⟨(setRotation_normalises_axis (1 / 8388608) ⟨0, 0, 2⟩ 1).1
      (by
        simp only [btVector3.length, btVector3.length2, btVector3.dot, realMath]
        exact (Real.sqrt_pos.2 (by norm_num)).ne'),
    (setRotation_normalises_axis (1 / 8388608) ⟨0, 0, 0⟩ 1).2
      (by simp [btVector3.length, btVector3.length2, btVector3.dot, realMath])⟩

/-- A vector of squared length one has real length one. -/
theorem vec_length_of_unit (eps : ℝ) (a : btVector3 ℝ) (ha : btVector3.length2 a = 1) :
    btVector3.length (realMath eps) a = 1 := by
  simp only [btVector3.length, realMath, ha, Real.sqrt_one]

/-- The axis-angle quaternion of a unit axis, component by component. -/
theorem axisAngleQuaternion_of_unit (eps : ℝ) (a : btVector3 ℝ) (theta : ℝ)
    (ha : btVector3.length2 a = 1) :
    axisAngleQuaternion (realMath eps) a theta
      = ⟨a.x * Real.sin (theta / 2), a.y * Real.sin (theta / 2), a.z * Real.sin (theta / 2),
          Real.cos (theta / 2)⟩ := by
  simp only [axisAngleQuaternion, vec_length_of_unit eps a ha, btVector3.divide,
    btVector3.scale, div_one]
  rfl

/-- C13: axis-angle round trip.  For every unit axis `a` and every angle `theta` in
`(0, pi)`, the quaternion `q = btQuaternion(a, theta)` satisfies `q.getAngle() = theta`, and
`q.getAxis() = a` whenever the degenerate-axis fallback is not taken
(`1 - w^2 >= 10 * SIMD_EPSILON`); when the fallback is taken `getAxis` returns `(1,0,0)`. -/
theorem axis_angle_round_trip (eps : ℝ) (a : btVector3 ℝ) (theta : ℝ)
    (ha : btVector3.length2 a = 1) (h0 : 0 < theta) (hpi : theta < Real.pi) :
    ∃ q : btQuaternion ℝ,
      btQuaternion_setRotation (realMath eps) a theta = some q
        ∧ getAngle (realMath eps) q = theta
        ∧ (10 * eps ≤ 1 - q.w * q.w → getAxis (realMath eps) q = a)
        ∧ (1 - q.w * q.w < 10 * eps → getAxis (realMath eps) q = ⟨1, 0, 0⟩) := by
  have hlen : btVector3.length (realMath eps) a ≠ 0 := by
    rw [vec_length_of_unit eps a ha]; exact one_ne_zero
  refine ⟨_, setRotation_eq eps a theta hlen, ?_, ?_, ?_⟩
  · rw [axisAngleQuaternion_of_unit eps a theta ha]
    simp only [getAngle, realMath]
    rw [Real.arccos_cos (by linarith) (by linarith)]
    ring
  · intro hbig
    rw [axisAngleQuaternion_of_unit eps a theta ha] at hbig ⊢
    have hs : 0 < Real.sin (theta / 2) :=
      Real.sin_pos_of_pos_of_lt_pi (by linarith) (by linarith)
    have hsq : 1 - Real.cos (theta / 2) * Real.cos (theta / 2) = Real.sin (theta / 2) ^ 2 := by
      have := Real.sin_sq_add_cos_sq (theta / 2)
      linarith
    dsimp only at hbig
    rw [hsq] at hbig
    unfold getAxis
    simp only [realMath, hsq, not_lt.2 hbig, if_false, Real.sqrt_sq hs.le]
    ext <;> field_simp
  · intro hsmall
    unfold getAxis
    simp only [realMath] at hsmall ⊢
    rw [if_pos hsmall]

/-- Witness of C13 at the axis `(0,0,1)` and the angle 1. -/
theorem axis_angle_round_trip_witness :
    ∃ q : btQuaternion ℝ,
      btQuaternion_setRotation (realMath (1 / 8388608)) ⟨0, 0, 1⟩ 1 = some q
        ∧ getAngle (realMath (1 / 8388608)) q = 1
        ∧ (10 * (1 / 8388608) ≤ 1 - q.w * q.w
            → getAxis (realMath (1 / 8388608)) q = ⟨0, 0, 1⟩)
        ∧ (1 - q.w * q.w < 10 * (1 / 8388608)
            → getAxis (realMath (1 / 8388608)) q = ⟨1, 0, 0⟩) :=
  axis_angle_round_trip (1 / 8388608) ⟨0, 0, 1⟩ 1
    (by norm_num [btVector3.length2, btVector3.dot]) (by norm_num)
    (by have := Real.pi_gt_three; linarith)

/-- C14: the end-to-end rotation scenario.  The quaternion built from the axis `(0,0,1)` and
the angle `pi/2` is `(0, 0, sqrt(2)/2, sqrt(2)/2)`, and rotating `(1,0,0)` by it gives
`(0,1,0)`. -/
theorem quarter_turn_about_z (eps : ℝ) :
    btQuaternion_setRotation (realMath eps) ⟨0, 0, 1⟩ (Real.pi / 2)
        = some ⟨0, 0, Real.sqrt 2 / 2, Real.sqrt 2 / 2⟩
      ∧ quatRotate (⟨0, 0, Real.sqrt 2 / 2, Real.sqrt 2 / 2⟩ : btQuaternion ℝ) ⟨1, 0, 0⟩
        = ⟨0, 1, 0⟩ := by
  have ha : btVector3.length2 (⟨0, 0, 1⟩ : btVector3 ℝ) = 1 := by
    norm_num [btVector3.length2, btVector3.dot]
  have hlen : btVector3.length (realMath eps) ⟨0, 0, 1⟩ ≠ 0 := by
    rw [vec_length_of_unit eps _ ha]; exact one_ne_zero
  have h2 : Real.sqrt 2 * Real.sqrt 2 = 2 := Real.mul_self_sqrt (by norm_num)
  constructor
  · rw [setRotation_eq eps _ _ hlen, axisAngleQuaternion_of_unit eps _ _ ha]
    have e : Real.pi / 2 / 2 = Real.pi / 4 := by ring
    rw [e, Real.sin_pi_div_four, Real.cos_pi_div_four]
    simp
  · ext <;>
      simp only [quatRotate, btQuaternion_multiplyQuat,
        btQuaternion_makeQuatVector3Multiplication, inverse] <;>
      nlinarith [h2]

/-! ## Difference extraction -/

/-- A unit quaternion is rebuilt from its normalised vector part and the angle `2*acos(w)`:
the axis-angle quaternion of `(v / |v|, 2*acos(w))` is the quaternion itself, when the vector
part `v` is not zero. -/
theorem axisAngleQuaternion_of_axis_angle (eps : ℝ) (d : btQuaternion ℝ) (hd : length2 d = 1)
    (hv : 0 < btVector3.length2 (⟨d.x, d.y, d.z⟩ : btVector3 ℝ)) :
    axisAngleQuaternion (realMath eps)
        (btVector3.divide ⟨d.x, d.y, d.z⟩
          (Real.sqrt (btVector3.length2 (⟨d.x, d.y, d.z⟩ : btVector3 ℝ))))
        (2 * Real.arccos d.w) = d := by
  have hL : btVector3.length2 (⟨d.x, d.y, d.z⟩ : btVector3 ℝ) = 1 - d.w ^ 2 := by
    simp only [length2, dot] at hd
    simp only [btVector3.length2, btVector3.dot]
    linear_combination hd
  have hw2 : d.w ^ 2 ≤ 1 := by
    have := vec_length2_nonneg (⟨d.x, d.y, d.z⟩ : btVector3 ℝ)
    linarith
  have hwabs : -1 ≤ d.w ∧ d.w ≤ 1 := abs_le.1 ((sq_le_one_iff_abs_le_one d.w).1 hw2)
  have hs : Real.sqrt (btVector3.length2 (⟨d.x, d.y, d.z⟩ : btVector3 ℝ)) ≠ 0 :=
    (Real.sqrt_pos.2 hv).ne'
  rw [axisAngleQuaternion_of_unit eps _ _ (length2_divide_sqrt _ hv)]
  have e : 2 * Real.arccos d.w / 2 = Real.arccos d.w := by ring
  rw [e, Real.sin_arccos, Real.cos_arccos hwabs.1 hwabs.2, ← hL]
  ext <;> simp only [btVector3.divide] <;> field_simp

/-- C15: difference extraction reconstructs the target orientation.  For all unit
quaternions `orn0`, `orn1`, if `(axis, angle) = calculateDiffAxisAngleQuaternion(orn0, orn1)`
and the near-zero-axis fallback is not taken (the squared length of the vector part of the
difference is at least `SIMD_EPSILON^2`), then `btQuaternion(axis, angle) * orn0` is
`orn0.nearest(orn1)`. -/
theorem calculateDiffAxisAngleQuaternion_reconstructs (eps : ℝ) (heps : 0 < eps)
    (orn0 orn1 : b3Quaternion ℝ) (h0 : length2 orn0 = 1) (h1 : length2 orn1 = 1)
    (hnofallback : eps * eps ≤ btVector3.length2
      (⟨(btQuaternion_makeQuatMultiplication (nearest orn0 orn1) (inverse orn0)).x,
        (btQuaternion_makeQuatMultiplication (nearest orn0 orn1) (inverse orn0)).y,
        (btQuaternion_makeQuatMultiplication (nearest orn0 orn1) (inverse orn0)).z⟩ :
          btVector3 ℝ)) :
    ∃ q : btQuaternion ℝ,
      btQuaternion_setRotation (realMath eps)
          (calculateDiffAxisAngleQuaternion (realMath eps) orn0 orn1).1
          (calculateDiffAxisAngleQuaternion (realMath eps) orn0 orn1).2 = some q
        ∧ btQuaternion_makeQuatMultiplication q orn0 = nearest orn0 orn1 := by
  have hd : length2 (btQuaternion_makeQuatMultiplication (nearest orn0 orn1) (inverse orn0))
      = 1 := by
    rw [length2_mul, length2_inverse, length2_nearest, h0, h1, mul_one]
  have hv := lt_of_lt_of_le (mul_pos heps heps) hnofallback
  have hcalc : calculateDiffAxisAngleQuaternion (realMath eps) orn0 orn1
      = (btVector3.divide
          ⟨(btQuaternion_makeQuatMultiplication (nearest orn0 orn1) (inverse orn0)).x,
            (btQuaternion_makeQuatMultiplication (nearest orn0 orn1) (inverse orn0)).y,
            (btQuaternion_makeQuatMultiplication (nearest orn0 orn1) (inverse orn0)).z⟩
          (Real.sqrt (btVector3.length2
            (⟨(btQuaternion_makeQuatMultiplication (nearest orn0 orn1) (inverse orn0)).x,
              (btQuaternion_makeQuatMultiplication (nearest orn0 orn1) (inverse orn0)).y,
              (btQuaternion_makeQuatMultiplication (nearest orn0 orn1) (inverse orn0)).z⟩ :
                btVector3 ℝ))),
        2 * Real.arccos
          (btQuaternion_makeQuatMultiplication (nearest orn0 orn1) (inverse orn0)).w) := by
    unfold calculateDiffAxisAngleQuaternion
    simp only [realMath, getAngle, not_lt.2 hnofallback, if_false]
  have haxis : btVector3.length (realMath eps)
      (calculateDiffAxisAngleQuaternion (realMath eps) orn0 orn1).1 ≠ 0 := by
    rw [hcalc, vec_length_of_unit eps _ (length2_divide_sqrt _ hv)]
    exact one_ne_zero
  refine ⟨_, setRotation_eq eps _ _ haxis, ?_⟩
  rw [hcalc]
  dsimp only
  rw [axisAngleQuaternion_of_axis_angle eps _ hd hv, mul_inverse_mul_cancel _ _ h0]

/-- Witness of C15 at `orn0 = (0,0,0,1)` and `orn1 = (3/5, 0, 0, 4/5)`. -/
theorem calculateDiffAxisAngleQuaternion_reconstructs_witness :
    ∃ q : btQuaternion ℝ,
      btQuaternion_setRotation (realMath (1 / 8388608))
          (calculateDiffAxisAngleQuaternion (realMath (1 / 8388608))
            ⟨0, 0, 0, 1⟩ ⟨3 / 5, 0, 0, 4 / 5⟩).1
          (calculateDiffAxisAngleQuaternion (realMath (1 / 8388608))
            ⟨0, 0, 0, 1⟩ ⟨3 / 5, 0, 0, 4 / 5⟩).2 = some q
        ∧ btQuaternion_makeQuatMultiplication q ⟨0, 0, 0, 1⟩
          = nearest ⟨0, 0, 0, 1⟩ ⟨3 / 5, 0, 0, 4 / 5⟩ :=
  calculateDiffAxisAngleQuaternion_reconstructs (1 / 8388608) (by norm_num)
    ⟨0, 0, 0, 1⟩ ⟨3 / 5, 0, 0, 4 / 5⟩ (by norm_num [length2, dot]) (by norm_num [length2, dot])
    (by
      norm_num [nearest, dot, add, sub, btQuaternion_makeQuatMultiplication, inverse,
        btVector3.length2, btVector3.dot])

/-! ## Shortest arc between two unit vectors -/

/-- Rotating `v0` by the quaternion with vector part `(v0 x v1) * r` and scalar part `w`. -/
theorem quatRotate_cross (v0 v1 : btVector3 α) (r w : α) :
    quatRotate
        ⟨(btVector3.cross v0 v1).x * r, (btVector3.cross v0 v1).y * r,
          (btVector3.cross v0 v1).z * r, w⟩ v0
      = btVector3.add
          (btVector3.scale v0
            (w * w - r * r * (btVector3.length2 v0 * btVector3.length2 v1
                - btVector3.dot v0 v1 * btVector3.dot v0 v1)
              - 2 * w * r * btVector3.dot v0 v1))
          (btVector3.scale v1 (2 * w * r * btVector3.length2 v0)) := by
  ext <;>
    simp only [quatRotate, btQuaternion_multiplyQuat, btQuaternion_makeQuatVector3Multiplication,
      inverse, btVector3.cross, btVector3.add, btVector3.scale, btVector3.length2,
      btVector3.dot] <;>
    ring

/-- The squared length of the quaternion with vector part `(v0 x v1) * r` and scalar part
`w`. -/
theorem length2_cross (v0 v1 : btVector3 α) (r w : α) :
    length2
        (⟨(btVector3.cross v0 v1).x * r, (btVector3.cross v0 v1).y * r,
          (btVector3.cross v0 v1).z * r, w⟩ : btQuaternion α)
      = r * r * (btVector3.length2 v0 * btVector3.length2 v1
          - btVector3.dot v0 v1 * btVector3.dot v0 v1) + w * w := by
  simp only [length2, dot, btVector3.cross, btVector3.length2, btVector3.dot]
  ring

/-- The scalar identities behind `shortestArcQuat`: with `s^2 = 2*(1 + d)` and `r = 1/s`. -/
theorem shortestArc_scalars (d r s : ℝ) (hr : r * s = 1) (hs2 : s * s = (1 + d) * 2) :
    r * r * (1 - d * d) = (1 - d) / 2 ∧ s * 0.5 * (s * 0.5) = (1 + d) / 2
      ∧ 2 * (s * 0.5) * r = 1 := by
  refine ⟨?_, ?_, ?_⟩
  · linear_combination ((1 - d) / 2) * (r * s + 1) * hr - (r * r * (1 - d) / 2) * hs2
  · norm_num; linear_combination (1 / 4 : ℝ) * hs2
  · norm_num; linear_combination hr

/-- C16: `shortestArcQuat` rotates `v0` onto `v1`.  For all unit 3-vectors `v0`, `v1` with
`dot(v0, v1) >= -1 + SIMD_EPSILON` (the non-antiparallel branch), the quaternion
`shortestArcQuat(v0, v1)` has unit norm and rotates `v0` to `v1`. -/
theorem shortestArcQuat_rotates (eps : ℝ) (heps : 0 < eps)
    (btPlaneSpace1 : btVector3 ℝ → btVector3 ℝ × btVector3 ℝ) (v0 v1 : btVector3 ℝ)
    (h0 : btVector3.length2 v0 = 1) (h1 : btVector3.length2 v1 = 1)
    (hd : -1 + eps ≤ btVector3.dot v0 v1) :
    length2 (shortestArcQuat (realMath eps) btPlaneSpace1 v0 v1) = 1
      ∧ quatRotate (shortestArcQuat (realMath eps) btPlaneSpace1 v0 v1) v0 = v1 := by
  have hbranch : ¬ (btVector3.dot v0 v1 < -1.0 + eps) := by
    norm_num; linarith
  have hpos : 0 < (1.0 + btVector3.dot v0 v1) * 2.0 := by
    norm_num; linarith
  have hs2 : Real.sqrt ((1.0 + btVector3.dot v0 v1) * 2.0)
      * Real.sqrt ((1.0 + btVector3.dot v0 v1) * 2.0) = (1 + btVector3.dot v0 v1) * 2 := by
    rw [Real.mul_self_sqrt hpos.le]; norm_num
  have hr : 1.0 / Real.sqrt ((1.0 + btVector3.dot v0 v1) * 2.0)
      * Real.sqrt ((1.0 + btVector3.dot v0 v1) * 2.0) = 1 := by
    rw [div_mul_cancel₀ _ (Real.sqrt_pos.2 hpos).ne']; norm_num
  obtain ⟨e1, e2, e3⟩ := shortestArc_scalars _ _ _ hr hs2
  unfold shortestArcQuat
  simp only [realMath, hbranch, if_false]
  constructor
  · rw [length2_cross, h0, h1]
    linear_combination e1 + e2
  · rw [quatRotate_cross, h0, h1]
    ext <;> simp only [btVector3.add, btVector3.scale]
    · linear_combination v0.x * (e2 - e1) + (v1.x - btVector3.dot v0 v1 * v0.x) * e3
    · linear_combination v0.y * (e2 - e1) + (v1.y - btVector3.dot v0 v1 * v0.y) * e3
    · linear_combination v0.z * (e2 - e1) + (v1.z - btVector3.dot v0 v1 * v0.z) * e3

/-- Witness of C16 at `v0 = (1,0,0)` and `v1 = (0,1,0)`. -/
theorem shortestArcQuat_rotates_witness :
    length2 (shortestArcQuat (realMath (1 / 8388608)) (fun v => (v, v)) ⟨1, 0, 0⟩ ⟨0, 1, 0⟩) = 1
      ∧ quatRotate
          (shortestArcQuat (realMath (1 / 8388608)) (fun v => (v, v)) ⟨1, 0, 0⟩ ⟨0, 1, 0⟩)
          ⟨1, 0, 0⟩ = ⟨0, 1, 0⟩ :=
  shortestArcQuat_rotates (1 / 8388608) (by norm_num) (fun v => (v, v)) ⟨1, 0, 0⟩ ⟨0, 1, 0⟩
    (by norm_num [btVector3.length2, btVector3.dot])
    (by norm_num [btVector3.length2, btVector3.dot])
    (by norm_num [btVector3.dot])

/-! ## The exponential-map step of `integrateTransform` -/

/-- Normalising a quaternion of unit squared length leaves it unchanged. -/
theorem normalize_of_unit (eps : ℝ) (q : btQuaternion ℝ) (hq : length2 q = 1) :
    btQuaternion.normalize (realMath eps) q = q := by
  simp only [btQuaternion.normalize, btQuaternion.length, realMath, hq, Real.sqrt_one,
    btQuaternion.divide, div_one]

/-- The incremental rotation of the exact branch has unit norm. -/
theorem length2_dorn_exact (eps : ℝ) (angvel : btVector3 ℝ) (x : ℝ)
    (hW : btVector3.length (realMath eps) angvel ≠ 0) :
    length2 (⟨angvel.x * (Real.sin x / btVector3.length (realMath eps) angvel),
        angvel.y * (Real.sin x / btVector3.length (realMath eps) angvel),
        angvel.z * (Real.sin x / btVector3.length (realMath eps) angvel),
        Real.cos x⟩ : btQuaternion ℝ) = 1 := by
  have hd := vec_length_mul_self eps angvel
  have hsc := Real.sin_sq_add_cos_sq x
  simp only [btVector3.length2, btVector3.dot] at hd
  simp only [length2, dot]
  field_simp
  nlinarith [hd, hsc]

/-- C17: the exponential-map step of `integrateTransform` in the unclamped exact branch.  For
a pose with unit orientation `q` and origin `p`, and `timeStep > 0` with `|angVel| >= 0.001`
and `|angVel| * timeStep <= ANGULAR_MOTION_THRESHOLD`, the predicted origin is
`p + linVel * timeStep` and the predicted orientation is
`btQuaternion(angVel, |angVel| * timeStep) * q`, the incremental rotation having vector part
`angVel * sin(0.5*|angVel|*timeStep)/|angVel|` and scalar part `cos(0.5*|angVel|*timeStep)`. -/
theorem integrateTransform_exponential_map (eps : ℝ) (curTrans : b3Transform ℝ)
    (linvel angvel : b3Vector3 ℝ) (timeStep : ℝ) (_ht : 0 < timeStep)
    (hq : length2 curTrans.getRotation = 1)
    (hbig : 0.001 ≤ btVector3.length (realMath eps) angvel)
    (hsmall : btVector3.length (realMath eps) angvel * timeStep
      ≤ ANGULAR_MOTION_THRESHOLD (realMath eps)) :
    (integrateTransform (realMath eps) curTrans linvel angvel timeStep).getOrigin
        = btVector3.add curTrans.getOrigin (btVector3.scale linvel timeStep)
      ∧ ∃ d : btQuaternion ℝ,
          btQuaternion_setRotation (realMath eps) angvel
              (btVector3.length (realMath eps) angvel * timeStep) = some d
            ∧ d = ⟨angvel.x * (Real.sin (0.5 * btVector3.length (realMath eps) angvel * timeStep)
                      / btVector3.length (realMath eps) angvel),
                    angvel.y * (Real.sin (0.5 * btVector3.length (realMath eps) angvel * timeStep)
                      / btVector3.length (realMath eps) angvel),
                    angvel.z * (Real.sin (0.5 * btVector3.length (realMath eps) angvel * timeStep)
                      / btVector3.length (realMath eps) angvel),
                    Real.cos (0.5 * btVector3.length (realMath eps) angvel * timeStep)⟩
            ∧ (integrateTransform (realMath eps) curTrans linvel angvel timeStep).getRotation
                = btQuaternion_makeQuatMultiplication d curTrans.getRotation := by
  have hW : btVector3.length (realMath eps) angvel ≠ 0 := by
    have h : (0 : ℝ) < 0.001 := by norm_num
    exact (lt_of_lt_of_le h hbig).ne'
  have e1 : btVector3.length (realMath eps) angvel * timeStep * 0.5
      = 0.5 * btVector3.length (realMath eps) angvel * timeStep := by ring
  refine ⟨rfl,
    ⟨angvel.x * (Real.sin (0.5 * btVector3.length (realMath eps) angvel * timeStep)
        / btVector3.length (realMath eps) angvel),
      angvel.y * (Real.sin (0.5 * btVector3.length (realMath eps) angvel * timeStep)
        / btVector3.length (realMath eps) angvel),
      angvel.z * (Real.sin (0.5 * btVector3.length (realMath eps) angvel * timeStep)
        / btVector3.length (realMath eps) angvel),
      Real.cos (0.5 * btVector3.length (realMath eps) angvel * timeStep)⟩, ?_, rfl, ?_⟩
  · unfold btQuaternion_setRotation
    simp only [hW, ne_eq, not_false_eq_true, if_true, e1]
    rfl
  · unfold integrateTransform
    simp only [gt_iff_lt, not_lt.2 hsmall, not_lt.2 hbig, if_false, btVector3.scale, e1]
    apply normalize_of_unit
    rw [length2_mul, hq, mul_one]
    exact length2_dorn_exact eps angvel _ hW

/-- The real length of the vector `(1/2, 0, 0)`. -/
theorem length_half_x (eps : ℝ) : btVector3.length (realMath eps) ⟨1 / 2, 0, 0⟩ = 1 / 2 := by
  simp only [btVector3.length, btVector3.length2, btVector3.dot, realMath]
  rw [show (1 / 2 : ℝ) * (1 / 2) + 0 * 0 + 0 * 0 = (1 / 2) ^ 2 by norm_num]
  exact Real.sqrt_sq (by norm_num)

/-- Witness of C17: the identity pose, linear velocity `(1,2,3)`, angular velocity
`(1/2,0,0)` and time step 1, for which `|angVel| * timeStep = 1/2` lies between `0.001` and
the threshold `pi/4`. -/
theorem integrateTransform_exponential_map_witness :
    (integrateTransform (realMath (1 / 8388608)) ⟨⟨0, 0, 0⟩, ⟨0, 0, 0, 1⟩⟩ ⟨1, 2, 3⟩
        ⟨1 / 2, 0, 0⟩ 1).getOrigin
        = btVector3.add ⟨0, 0, 0⟩ (btVector3.scale ⟨1, 2, 3⟩ 1)
      ∧ ∃ d : btQuaternion ℝ,
          btQuaternion_setRotation (realMath (1 / 8388608)) ⟨1 / 2, 0, 0⟩
              (btVector3.length (realMath (1 / 8388608)) ⟨1 / 2, 0, 0⟩ * 1) = some d
            ∧ (integrateTransform (realMath (1 / 8388608)) ⟨⟨0, 0, 0⟩, ⟨0, 0, 0, 1⟩⟩ ⟨1, 2, 3⟩
                ⟨1 / 2, 0, 0⟩ 1).getRotation
              = btQuaternion_makeQuatMultiplication d ⟨0, 0, 0, 1⟩ := by
  have hpi := Real.pi_gt_three
  obtain ⟨ho, d, hd, _, hr⟩ :=
    integrateTransform_exponential_map (1 / 8388608) ⟨⟨0, 0, 0⟩, ⟨0, 0, 0, 1⟩⟩ ⟨1, 2, 3⟩
      ⟨1 / 2, 0, 0⟩ 1 (by norm_num) (by norm_num [length2, dot])
      (by rw [length_half_x]; norm_num)
      (by
        rw [length_half_x]
        simp only [ANGULAR_MOTION_THRESHOLD, realMath]
        norm_num; linarith)
  exact ⟨ho, d, hd, hr⟩

/-- C18: `integrateTransform` with zero velocities is the identity on poses: for every pose
whose orientation is a unit quaternion and every time step, the predicted pose has the same
origin and the same orientation. -/
theorem integrateTransform_zero_velocity (eps : ℝ) (curTrans : b3Transform ℝ) (timeStep : ℝ)
    (hq : length2 curTrans.getRotation = 1) :
    (integrateTransform (realMath eps) curTrans ⟨0, 0, 0⟩ ⟨0, 0, 0⟩ timeStep).getOrigin
        = curTrans.getOrigin
      ∧ (integrateTransform (realMath eps) curTrans ⟨0, 0, 0⟩ ⟨0, 0, 0⟩ timeStep).getRotation
        = curTrans.getRotation := by
  have hpi := Real.pi_pos
  have hlen : btVector3.length (realMath eps) ⟨0, 0, 0⟩ = 0 := by
    simp [btVector3.length, btVector3.length2, btVector3.dot, realMath]
  have hnoclamp : ¬ ((0 : ℝ) > ANGULAR_MOTION_THRESHOLD (realMath eps)) := by
    simp only [ANGULAR_MOTION_THRESHOLD, realMath]
    norm_num; linarith
  have htaylor : (0 : ℝ) < 0.001 := by norm_num
  constructor
  · unfold integrateTransform
    ext <;> simp [btVector3.add, btVector3.scale]
  · unfold integrateTransform
    simp only [hlen, zero_mul, hnoclamp, htaylor, if_true, if_false, btVector3.scale]
    have hmul : btQuaternion_makeQuatMultiplication
        (⟨0, 0, 0, (realMath eps).btCos 0⟩ : btQuaternion ℝ) curTrans.getRotation
        = curTrans.getRotation := by
      ext <;> simp [btQuaternion_makeQuatMultiplication, realMath]
    rw [hmul]
    exact normalize_of_unit eps _ hq

/-- Witness of C18 at the pose with origin `(1,2,3)` and orientation `(3/5, 0, 0, 4/5)`, with
time step `1/60`. -/
theorem integrateTransform_zero_velocity_witness :
    (integrateTransform (realMath (1 / 8388608)) ⟨⟨1, 2, 3⟩, ⟨3 / 5, 0, 0, 4 / 5⟩⟩
        ⟨0, 0, 0⟩ ⟨0, 0, 0⟩ (1 / 60)).getOrigin = ⟨1, 2, 3⟩
      ∧ (integrateTransform (realMath (1 / 8388608)) ⟨⟨1, 2, 3⟩, ⟨3 / 5, 0, 0, 4 / 5⟩⟩
        ⟨0, 0, 0⟩ ⟨0, 0, 0⟩ (1 / 60)).getRotation = ⟨3 / 5, 0, 0, 4 / 5⟩ :=
  integrateTransform_zero_velocity (1 / 8388608) ⟨⟨1, 2, 3⟩, ⟨3 / 5, 0, 0, 4 / 5⟩⟩ (1 / 60)
    (by norm_num [length2, dot])

/-! ## The separating-distance tracker: collapsed and stationary trackers -/

/-- A tracker whose stored distance is not positive keeps that distance through an
update. -/
theorem updateSeparatingDistance_collapsed (M : btScalarMath α)
    (s : btConvexSeparatingDistanceUtil α) (transA transB : b3Transform α)
    (hd : s.m_separatingDistance ≤ 0) :
    (updateSeparatingDistance M s transA transB).m_separatingDistance
      = s.m_separatingDistance := by
  unfold updateSeparatingDistance
  simp only [gt_iff_lt, not_lt.2 hd, if_false]

/-- A tracker whose stored distance is not positive keeps that distance through any finite
sequence of updates. -/
theorem updateSeparatingDistanceSeq_collapsed (M : btScalarMath α)
    (calls : List (b3Transform α × b3Transform α)) :
    ∀ s : btConvexSeparatingDistanceUtil α, s.m_separatingDistance ≤ 0 →
      (updateSeparatingDistanceSeq M s calls).m_separatingDistance = s.m_separatingDistance := by
  induction calls with
  | nil => intro s _; rfl
  | cons c rest ih =>
    intro s hd
    have h1 := updateSeparatingDistance_collapsed M s c.1 c.2 hd
    have h2 := ih (updateSeparatingDistance M s c.1 c.2) (by rw [h1]; exact hd)
    simp only [updateSeparatingDistanceSeq, List.foldl_cons] at h2 ⊢
    rw [h2, h1]

/-- The stored distance after `initSeparatingDistance` is its distance argument. -/
theorem initSeparatingDistance_distance (s : btConvexSeparatingDistanceUtil α)
    (separatingVector : b3Vector3 α) (d : α) (transA transB : b3Transform α) :
    (initSeparatingDistance s separatingVector d transA transB).m_separatingDistance = d := by
  unfold initSeparatingDistance
  split_ifs <;> rfl

/-- C19: collapsed stays collapsed.  An update of a tracker whose stored distance is `<= 0`
leaves the stored distance unchanged; hence after `initSeparatingDistance` with a distance
`d <= 0`, and likewise on a freshly constructed tracker, after any finite sequence of
`updateSeparatingDistance` calls `getConservativeSeparatingDistance` still returns that
value, which is `<= 0`. -/
theorem collapsed_stays_collapsed (M : btScalarMath α) (s : btConvexSeparatingDistanceUtil α)
    (separatingVector : b3Vector3 α) (d : α) (transA transB : b3Transform α)
    (boundingRadiusA boundingRadiusB : α)
    (calls : List (b3Transform α × b3Transform α)) (hd : d ≤ 0) :
    (s.m_separatingDistance ≤ 0 →
        (updateSeparatingDistance M s transA transB).m_separatingDistance
          = s.m_separatingDistance)
      ∧ getConservativeSeparatingDistance
          (updateSeparatingDistanceSeq M
            (initSeparatingDistance s separatingVector d transA transB) calls) = d
      ∧ getConservativeSeparatingDistance
          (updateSeparatingDistanceSeq M
            (initSeparatingDistance s separatingVector d transA transB) calls) ≤ 0
      ∧ getConservativeSeparatingDistance
          (updateSeparatingDistanceSeq M (construct s boundingRadiusA boundingRadiusB) calls)
          = 0 := by
  have hinit := initSeparatingDistance_distance s separatingVector d transA transB
  have h1 : getConservativeSeparatingDistance
      (updateSeparatingDistanceSeq M
        (initSeparatingDistance s separatingVector d transA transB) calls) = d := by
    unfold getConservativeSeparatingDistance
    rw [updateSeparatingDistanceSeq_collapsed M calls _ (by rw [hinit]; exact hd), hinit]
  refine ⟨updateSeparatingDistance_collapsed M s transA transB, h1, by rw [h1]; exact hd, ?_⟩
  unfold getConservativeSeparatingDistance
  rw [updateSeparatingDistanceSeq_collapsed M calls _ (by simp [construct])]
  rfl

/-- Witness of C19: a tracker seeded with distance `-1`, then updated twice with moving
bodies, still reports `-1`. -/
theorem collapsed_stays_collapsed_witness :
    getConservativeSeparatingDistance
      (updateSeparatingDistanceSeq (realMath (1 / 8388608))
        (initSeparatingDistance
          ⟨⟨0, 0, 0, 1⟩, ⟨0, 0, 0, 1⟩, ⟨0, 0, 0⟩, ⟨0, 0, 0⟩, ⟨0, 0, 0⟩, 1, 1, 0⟩
          ⟨1, 0, 0⟩ (-1) ⟨⟨1, 0, 0⟩, ⟨0, 0, 0, 1⟩⟩ ⟨⟨0, 0, 0⟩, ⟨0, 0, 0, 1⟩⟩)
        [(⟨⟨1, 0, 0⟩, ⟨0, 0, 0, 1⟩⟩, ⟨⟨5, 0, 0⟩, ⟨0, 0, 1, 0⟩⟩),
          (⟨⟨2, 0, 0⟩, ⟨0, 0, 0, 1⟩⟩, ⟨⟨7, 0, 0⟩, ⟨0, 0, 0, 1⟩⟩)]) = -1 :=
  (collapsed_stays_collapsed (realMath (1 / 8388608))
    ⟨⟨0, 0, 0, 1⟩, ⟨0, 0, 0, 1⟩, ⟨0, 0, 0⟩, ⟨0, 0, 0⟩, ⟨0, 0, 0⟩, 1, 1, 0⟩
    ⟨1, 0, 0⟩ (-1) ⟨⟨1, 0, 0⟩, ⟨0, 0, 0, 1⟩⟩ ⟨⟨0, 0, 0⟩, ⟨0, 0, 0, 1⟩⟩ 1 1
    [(⟨⟨1, 0, 0⟩, ⟨0, 0, 0, 1⟩⟩, ⟨⟨5, 0, 0⟩, ⟨0, 0, 1, 0⟩⟩),
      (⟨⟨2, 0, 0⟩, ⟨0, 0, 0, 1⟩⟩, ⟨⟨7, 0, 0⟩, ⟨0, 0, 0, 1⟩⟩)]
    (by norm_num)).2.1

/-- An update with the baseline poses themselves leaves an armed tracker unchanged. -/
theorem updateSeparatingDistance_stationary (M : btScalarMath α) (hsqrt : M.btSqrt 0 = 0)
    (s : btConvexSeparatingDistanceUtil α) (transA transB : b3Transform α)
    (hd : 0 < s.m_separatingDistance)
    (hpA : s.m_posA = transA.getOrigin) (hpB : s.m_posB = transB.getOrigin)
    (hoA : s.m_ornA = transA.getRotation) (hoB : s.m_ornB = transB.getRotation) :
    updateSeparatingDistance M s transA transB = s := by
  have hdist := updateSeparatingDistance_translation M hsqrt s transA transB hd hoA.symm hoB.symm
  have hzero : btVector3.dot
      (btVector3.sub (btVector3.sub transB.getOrigin s.m_posB)
        (btVector3.sub transA.getOrigin s.m_posA)) s.m_separatingNormal = 0 := by
    rw [hpA, hpB]; simp [btVector3.dot, btVector3.sub]
  rw [hzero, max_self, sub_zero] at hdist
  ext1
  · exact hoA.symm
  · exact hoB.symm
  · exact hpA.symm
  · exact hpB.symm
  · rfl
  · rfl
  · rfl
  · exact hdist

/-- Any number of updates with the baseline poses leaves an armed tracker unchanged. -/
theorem updateSeparatingDistanceSeq_stationary (M : btScalarMath α) (hsqrt : M.btSqrt 0 = 0)
    (s : btConvexSeparatingDistanceUtil α) (transA transB : b3Transform α)
    (hd : 0 < s.m_separatingDistance)
    (hpA : s.m_posA = transA.getOrigin) (hpB : s.m_posB = transB.getOrigin)
    (hoA : s.m_ornA = transA.getRotation) (hoB : s.m_ornB = transB.getRotation) (n : ℕ) :
    updateSeparatingDistanceSeq M s (List.replicate n (transA, transB)) = s := by
  induction n with
  | zero => rfl
  | succ k ih =>
    simp only [updateSeparatingDistanceSeq, List.replicate_succ, List.foldl_cons] at ih ⊢
    rw [updateSeparatingDistance_stationary M hsqrt s transA transB hd hpA hpB hoA hoB]
    exact ih

/-- C20: stationary bodies cause no decrement.  For a tracker initialised by
`initSeparatingDistance` with a positive distance `d` and poses `(transA, transB)`, any
number `n >= 0` of `updateSeparatingDistance(transA, transB)` calls with those same poses
leaves `getConservativeSeparatingDistance` equal to `d`. -/
theorem stationary_no_decrement (eps : ℝ) (s : btConvexSeparatingDistanceUtil ℝ)
    (separatingVector : b3Vector3 ℝ) (d : ℝ) (transA transB : b3Transform ℝ) (hd : 0 < d)
    (n : ℕ) :
    getConservativeSeparatingDistance
      (updateSeparatingDistanceSeq (realMath eps)
        (initSeparatingDistance s separatingVector d transA transB)
        (List.replicate n (transA, transB))) = d := by
  rw [updateSeparatingDistanceSeq_stationary (realMath eps) Real.sqrt_zero _ transA transB
    (by rw [initSeparatingDistance_distance]; exact hd)
    (by simp [initSeparatingDistance, hd]) (by simp [initSeparatingDistance, hd])
    (by simp [initSeparatingDistance, hd]) (by simp [initSeparatingDistance, hd])]
  exact initSeparatingDistance_distance s separatingVector d transA transB

/-- Witness of C20: a tracker seeded with distance 10 and updated three times with the
seeding poses still reports 10. -/
theorem stationary_no_decrement_witness :
    getConservativeSeparatingDistance
      (updateSeparatingDistanceSeq (realMath (1 / 8388608))
        (initSeparatingDistance
          ⟨⟨0, 0, 0, 1⟩, ⟨0, 0, 0, 1⟩, ⟨0, 0, 0⟩, ⟨0, 0, 0⟩, ⟨0, 0, 0⟩, 1, 1, 0⟩
          ⟨1, 0, 0⟩ 10 ⟨⟨12, 0, 0⟩, ⟨0, 0, 0, 1⟩⟩ ⟨⟨0, 0, 0⟩, ⟨0, 0, 1, 0⟩⟩)
        (List.replicate 3 (⟨⟨12, 0, 0⟩, ⟨0, 0, 0, 1⟩⟩, ⟨⟨0, 0, 0⟩, ⟨0, 0, 1, 0⟩⟩))) = 10 :=
  stationary_no_decrement (1 / 8388608)
    ⟨⟨0, 0, 0, 1⟩, ⟨0, 0, 0, 1⟩, ⟨0, 0, 0⟩, ⟨0, 0, 0⟩, ⟨0, 0, 0⟩, 1, 1, 0⟩
    ⟨1, 0, 0⟩ 10 ⟨⟨12, 0, 0⟩, ⟨0, 0, 0, 1⟩⟩ ⟨⟨0, 0, 0⟩, ⟨0, 0, 1, 0⟩⟩ (by norm_num) 3

/-! ## The separating-distance tracker: frame conditions -/

/-- C21: `initSeparatingDistance` always sets the stored distance to its `separatingDistance`
argument; it stores the separating normal and both baseline poses when that argument is
`> 0`, and when the argument is `<= 0` it leaves the stored normal and the baseline poses
unchanged; the radii are never modified. -/
theorem initSeparatingDistance_frame (s : btConvexSeparatingDistanceUtil α)
    (separatingVector : b3Vector3 α) (d : α) (transA transB : b3Transform α) :
    (initSeparatingDistance s separatingVector d transA transB).m_separatingDistance = d
      ∧ (0 < d →
          (initSeparatingDistance s separatingVector d transA transB).m_separatingNormal
              = separatingVector
            ∧ (initSeparatingDistance s separatingVector d transA transB).m_posA
              = transA.getOrigin
            ∧ (initSeparatingDistance s separatingVector d transA transB).m_posB
              = transB.getOrigin
            ∧ (initSeparatingDistance s separatingVector d transA transB).m_ornA
              = transA.getRotation
            ∧ (initSeparatingDistance s separatingVector d transA transB).m_ornB
              = transB.getRotation)
      ∧ (d ≤ 0 →
          (initSeparatingDistance s separatingVector d transA transB).m_separatingNormal
              = s.m_separatingNormal
            ∧ (initSeparatingDistance s separatingVector d transA transB).m_posA = s.m_posA
            ∧ (initSeparatingDistance s separatingVector d transA transB).m_posB = s.m_posB
            ∧ (initSeparatingDistance s separatingVector d transA transB).m_ornA = s.m_ornA
            ∧ (initSeparatingDistance s separatingVector d transA transB).m_ornB = s.m_ornB)
      ∧ (initSeparatingDistance s separatingVector d transA transB).m_boundingRadiusA
          = s.m_boundingRadiusA
      ∧ (initSeparatingDistance s separatingVector d transA transB).m_boundingRadiusB
          = s.m_boundingRadiusB := by
  refine ⟨initSeparatingDistance_distance s separatingVector d transA transB, ?_, ?_, ?_, ?_⟩
  · intro hd
    unfold initSeparatingDistance
    rw [if_pos hd]
    exact ⟨rfl, rfl, rfl, rfl, rfl⟩
  · intro hd
    unfold initSeparatingDistance
    rw [if_neg (not_lt.2 hd)]
    exact ⟨rfl, rfl, rfl, rfl, rfl⟩
  · unfold initSeparatingDistance
    split_ifs <;> rfl
  · unfold initSeparatingDistance
    split_ifs <;> rfl

/-- Witness of C21: seeding with distance 10 stores the normal `(1,0,0)`; seeding with
distance `-1` keeps the stored normal `(0,0,1)`. -/
theorem initSeparatingDistance_frame_witness :
    (initSeparatingDistance
        (⟨⟨0, 0, 0, 1⟩, ⟨0, 0, 0, 1⟩, ⟨0, 0, 0⟩, ⟨0, 0, 0⟩, ⟨0, 0, 1⟩, 1, 1, 0⟩ :
          btConvexSeparatingDistanceUtil ℚ)
        ⟨1, 0, 0⟩ 10 ⟨⟨12, 0, 0⟩, ⟨0, 0, 0, 1⟩⟩ ⟨⟨3, 0, 0⟩, ⟨0, 0, 1, 0⟩⟩).m_separatingNormal
        = ⟨1, 0, 0⟩
      ∧ (initSeparatingDistance
        (⟨⟨0, 0, 0, 1⟩, ⟨0, 0, 0, 1⟩, ⟨0, 0, 0⟩, ⟨0, 0, 0⟩, ⟨0, 0, 1⟩, 1, 1, 0⟩ :
          btConvexSeparatingDistanceUtil ℚ)
        ⟨1, 0, 0⟩ (-1) ⟨⟨12, 0, 0⟩, ⟨0, 0, 0, 1⟩⟩ ⟨⟨3, 0, 0⟩, ⟨0, 0, 1, 0⟩⟩).m_separatingNormal
        = ⟨0, 0, 1⟩ :=
  ⟨((initSeparatingDistance_frame
      (⟨⟨0, 0, 0, 1⟩, ⟨0, 0, 0, 1⟩, ⟨0, 0, 0⟩, ⟨0, 0, 0⟩, ⟨0, 0, 1⟩, 1, 1, 0⟩ :
        btConvexSeparatingDistanceUtil ℚ)
      ⟨1, 0, 0⟩ 10 ⟨⟨12, 0, 0⟩, ⟨0, 0, 0, 1⟩⟩ ⟨⟨3, 0, 0⟩, ⟨0, 0, 1, 0⟩⟩).2.1 (by norm_num)).1,
    ((initSeparatingDistance_frame
      (⟨⟨0, 0, 0, 1⟩, ⟨0, 0, 0, 1⟩, ⟨0, 0, 0⟩, ⟨0, 0, 0⟩, ⟨0, 0, 1⟩, 1, 1, 0⟩ :
        btConvexSeparatingDistanceUtil ℚ)
      ⟨1, 0, 0⟩ (-1) ⟨⟨12, 0, 0⟩, ⟨0, 0, 0, 1⟩⟩ ⟨⟨3, 0, 0⟩, ⟨0, 0, 1, 0⟩⟩).2.2.1
        (by norm_num)).1⟩

/-- C27: `updateSeparatingDistance` always replaces the four baseline fields with the
origins and rotations of the new transforms, whatever the stored distance was and becomes,
and it never modifies the stored separating normal or the two bounding radii. -/
theorem updateSeparatingDistance_frame (M : btScalarMath α)
    (s : btConvexSeparatingDistanceUtil α) (transA transB : b3Transform α) :
    (updateSeparatingDistance M s transA transB).m_posA = transA.getOrigin
      ∧ (updateSeparatingDistance M s transA transB).m_posB = transB.getOrigin
      ∧ (updateSeparatingDistance M s transA transB).m_ornA = transA.getRotation
      ∧ (updateSeparatingDistance M s transA transB).m_ornB = transB.getRotation
      ∧ (updateSeparatingDistance M s transA transB).m_separatingNormal = s.m_separatingNormal
      ∧ (updateSeparatingDistance M s transA transB).m_boundingRadiusA = s.m_boundingRadiusA
      ∧ (updateSeparatingDistance M s transA transB).m_boundingRadiusB = s.m_boundingRadiusB :=
  ⟨rfl, rfl, rfl, rfl, rfl, rfl, rfl⟩

/-! ## Velocity extraction -/

/-- C22: for every `timeStep != 0`, `calculateVelocityQuaternion` returns
`linVel = (pos1 - pos0) / timeStep`; `angVel` is exactly the zero vector when `orn0` and
`orn1` are component-wise equal, and otherwise `axis * angle / timeStep` with `(axis, angle)`
the result of `calculateDiffAxisAngleQuaternion(orn0, orn1)`. -/
theorem calculateVelocityQuaternion_spec (M : btScalarMath α) (pos0 pos1 : b3Vector3 α)
    (orn0 orn1 : b3Quaternion α) (timeStep : α) (_ht : timeStep ≠ 0) :
    (calculateVelocityQuaternion M pos0 pos1 orn0 orn1 timeStep).1
        = btVector3.divide (btVector3.sub pos1 pos0) timeStep
      ∧ (orn0 = orn1 →
          (calculateVelocityQuaternion M pos0 pos1 orn0 orn1 timeStep).2 = ⟨0, 0, 0⟩)
      ∧ (orn0 ≠ orn1 →
          (calculateVelocityQuaternion M pos0 pos1 orn0 orn1 timeStep).2
            = btVector3.divide
                (btVector3.scale (calculateDiffAxisAngleQuaternion M orn0 orn1).1
                  (calculateDiffAxisAngleQuaternion M orn0 orn1).2) timeStep) := by
  refine ⟨?_, ?_, ?_⟩
  · unfold calculateVelocityQuaternion
    split_ifs <;> rfl
  · intro h
    unfold calculateVelocityQuaternion
    simp [h]
  · intro h
    unfold calculateVelocityQuaternion
    simp [h]

/-- Witness of C22: time step 2, positions `(0,0,0)` and `(2,4,6)`, equal orientations. -/
theorem calculateVelocityQuaternion_spec_witness :
    (calculateVelocityQuaternion (realMath (1 / 8388608)) ⟨0, 0, 0⟩ ⟨2, 4, 6⟩ ⟨0, 0, 0, 1⟩
        ⟨0, 0, 0, 1⟩ 2).1 = btVector3.divide (btVector3.sub ⟨2, 4, 6⟩ ⟨0, 0, 0⟩) 2
      ∧ (calculateVelocityQuaternion (realMath (1 / 8388608)) ⟨0, 0, 0⟩ ⟨2, 4, 6⟩ ⟨0, 0, 0, 1⟩
        ⟨0, 0, 0, 1⟩ 2).2 = ⟨0, 0, 0⟩ :=
  ⟨(calculateVelocityQuaternion_spec (realMath (1 / 8388608)) ⟨0, 0, 0⟩ ⟨2, 4, 6⟩
      ⟨0, 0, 0, 1⟩ ⟨0, 0, 0, 1⟩ 2 (by norm_num)).1,
    (calculateVelocityQuaternion_spec (realMath (1 / 8388608)) ⟨0, 0, 0⟩ ⟨2, 4, 6⟩
      ⟨0, 0, 0, 1⟩ ⟨0, 0, 0, 1⟩ 2 (by norm_num)).2.1 rfl⟩

/-! ## Double-cover disambiguation: which member is returned -/

/-- Subtracting the negated quaternion is adding the quaternion. -/
theorem sub_neg_quat (q qd : btQuaternion α) : sub q (neg qd) = add q qd := by
  ext <;> simp [sub, add, neg]

/-- Adding the negated quaternion is subtracting the quaternion. -/
theorem add_neg_quat (q qd : btQuaternion α) : add q (neg qd) = sub q qd := by
  ext <;> simp only [sub, add, neg] <;> ring

/-- The member `nearest` returns its argument or the negated argument. -/
theorem nearest_mem (q qd : btQuaternion α) : nearest q qd = qd ∨ nearest q qd = neg qd := by
  unfold nearest; dsimp only
  split_ifs
  · exact Or.inl rfl
  · exact Or.inr rfl

/-- The member `farthest` returns its argument or the negated argument. -/
theorem farthest_mem (q qd : btQuaternion α) :
    farthest q qd = qd ∨ farthest q qd = neg qd := by
  unfold farthest; dsimp only
  split_ifs
  · exact Or.inl rfl
  · exact Or.inr rfl

/-- The squared distance from `q` to `nearest q qd` is the smaller of the squared distances
from `q` to `qd` and to `-qd`. -/
theorem nearest_distance (q qd : btQuaternion α) :
    length2 (sub q (nearest q qd)) = min (length2 (sub q qd)) (length2 (sub q (neg qd))) := by
  rw [sub_neg_quat]
  unfold nearest; dsimp only
  by_cases h : dot (sub q qd) (sub q qd) < dot (add q qd) (add q qd)
  · rw [if_pos h]
    exact (min_eq_left h.le).symm
  · rw [if_neg h, sub_neg_quat]
    exact (min_eq_right (not_lt.1 h)).symm

/-- The squared distance from `q` to `farthest q qd` is the larger of the squared distances
from `q` to `qd` and to `-qd`. -/
theorem farthest_distance (q qd : btQuaternion α) :
    length2 (sub q (farthest q qd))
      = max (length2 (sub q qd)) (length2 (sub q (neg qd))) := by
  rw [sub_neg_quat]
  unfold farthest; dsimp only
  by_cases h : dot (sub q qd) (sub q qd) > dot (add q qd) (add q qd)
  · rw [if_pos h]
    exact (max_eq_left h.le).symm
  · rw [if_neg h, sub_neg_quat]
    exact (max_eq_right (not_lt.1 h)).symm

/-- C23: double-cover disambiguation.  For every reference quaternion `q` and every
quaternion `qd`, `r = q.nearest(qd)` is one of `qd`, `-qd`, satisfies
`|q - r|^2 <= |q + r|^2`, and is the member closest to `q`: `|q - r|^2` is the smaller of
`|q - qd|^2` and `|q - (-qd)|^2`.  Likewise `f = q.farthest(qd)` is one of `qd`, `-qd`,
satisfies `|q - f|^2 >= |q + f|^2`, and is the member farthest from `q`: `|q - f|^2` is the
larger of the two squared distances. -/
theorem nearest_farthest_distances (q qd : btQuaternion α) :
    (nearest q qd = qd ∨ nearest q qd = neg qd)
      ∧ length2 (sub q (nearest q qd)) ≤ length2 (add q (nearest q qd))
      ∧ length2 (sub q (nearest q qd))
        = min (length2 (sub q qd)) (length2 (sub q (neg qd)))
      ∧ (farthest q qd = qd ∨ farthest q qd = neg qd)
      ∧ length2 (add q (farthest q qd)) ≤ length2 (sub q (farthest q qd))
      ∧ length2 (sub q (farthest q qd))
        = max (length2 (sub q qd)) (length2 (sub q (neg qd))) := by
  refine ⟨nearest_mem q qd, ?_, nearest_distance q qd, farthest_mem q qd, ?_,
    farthest_distance q qd⟩
  · unfold nearest; dsimp only
    by_cases h : dot (sub q qd) (sub q qd) < dot (add q qd) (add q qd)
    · rw [if_pos h]; exact h.le
    · rw [if_neg h, sub_neg_quat, add_neg_quat]; exact not_lt.1 h
  · unfold farthest; dsimp only
    by_cases h : dot (sub q qd) (sub q qd) > dot (add q qd) (add q qd)
    · rw [if_pos h]; exact h.le
    · rw [if_neg h, sub_neg_quat, add_neg_quat]; exact not_lt.1 h

/-! ## The quaternion norm under composition -/

/-- C29: the quaternion norm is multiplicative under composition,
`length2(q1 * q2) = length2(q1) * length2(q2)`; consequently the product of two unit
quaternions is a unit quaternion, and `inverse()` of a unit quaternion is a unit
quaternion. -/
theorem length2_multiplicative (q1 q2 : btQuaternion α) :
    length2 (btQuaternion_makeQuatMultiplication q1 q2) = length2 q1 * length2 q2
      ∧ (length2 q1 = 1 → length2 q2 = 1 →
          length2 (btQuaternion_makeQuatMultiplication q1 q2) = 1)
      ∧ (length2 q1 = 1 → length2 (inverse q1) = 1) := by
  refine ⟨length2_mul q1 q2, fun h1 h2 => ?_, fun h1 => ?_⟩
  · rw [length2_mul, h1, h2, mul_one]
  · rw [length2_inverse, h1]

/-- Witness of C29 at the unit quaternions `(3/5, 0, 0, 4/5)` and `(0, 5/13, 12/13, 0)`. -/
theorem length2_multiplicative_witness :
    length2 (btQuaternion_makeQuatMultiplication
        (⟨3 / 5, 0, 0, 4 / 5⟩ : btQuaternion ℚ) ⟨0, 5 / 13, 12 / 13, 0⟩) = 1
      ∧ length2 (inverse (⟨3 / 5, 0, 0, 4 / 5⟩ : btQuaternion ℚ)) = 1 :=
  ⟨(length2_multiplicative (⟨3 / 5, 0, 0, 4 / 5⟩ : btQuaternion ℚ)
      ⟨0, 5 / 13, 12 / 13, 0⟩).2.1 (by norm_num [length2, dot]) (by norm_num [length2, dot]),
    (length2_multiplicative (⟨3 / 5, 0, 0, 4 / 5⟩ : btQuaternion ℚ)
      ⟨0, 5 / 13, 12 / 13, 0⟩).2.2 (by norm_num [length2, dot])⟩

/-! ## The separating-distance tracker: monotonicity -/

/-- C30: the tracked distance is non-increasing under update.  In exact real arithmetic, for
every tracker whose two bounding radii are `>= 0` and every pair of new transforms, the
stored distance after `updateSeparatingDistance` is at most the stored distance before
it. -/
theorem updateSeparatingDistance_nonincreasing (eps : ℝ)
    (s : btConvexSeparatingDistanceUtil ℝ) (transA transB : b3Transform ℝ)
    (hrA : 0 ≤ s.m_boundingRadiusA) (hrB : 0 ≤ s.m_boundingRadiusB) :
    (updateSeparatingDistance (realMath eps) s transA transB).m_separatingDistance
      ≤ s.m_separatingDistance := by
  by_cases hd : 0 < s.m_separatingDistance
  · rw [updateSeparatingDistance_armed _ _ _ _ hd]
    have hA : 0 ≤ btVector3.length (realMath eps)
        (calculateVelocityQuaternion (realMath eps) s.m_posA transA.getOrigin s.m_ornA
          transA.getRotation 1).2 * s.m_boundingRadiusA :=
      mul_nonneg (Real.sqrt_nonneg _) hrA
    have hB : 0 ≤ btVector3.length (realMath eps)
        (calculateVelocityQuaternion (realMath eps) s.m_posB transB.getOrigin s.m_ornB
          transB.getRotation 1).2 * s.m_boundingRadiusB :=
      mul_nonneg (Real.sqrt_nonneg _) hrB
    have hmax := le_max_left 0 (btVector3.dot
      (btVector3.sub
        (calculateVelocityQuaternion (realMath eps) s.m_posB transB.getOrigin s.m_ornB
          transB.getRotation 1).1
        (calculateVelocityQuaternion (realMath eps) s.m_posA transA.getOrigin s.m_ornA
          transA.getRotation 1).1)
      s.m_separatingNormal)
    linarith
  · rw [updateSeparatingDistance_collapsed _ _ _ _ (not_lt.1 hd)]

/-- Witness of C30: a tracker at distance 10 with unit radii, whose body B moves to
`(3,0,0)` and makes a half turn about the z axis. -/
theorem updateSeparatingDistance_nonincreasing_witness :
    (updateSeparatingDistance (realMath (1 / 8388608))
        ⟨⟨0, 0, 0, 1⟩, ⟨0, 0, 0, 1⟩, ⟨12, 0, 0⟩, ⟨0, 0, 0⟩, ⟨1, 0, 0⟩, 1, 1, 10⟩
        ⟨⟨12, 0, 0⟩, ⟨0, 0, 0, 1⟩⟩ ⟨⟨3, 0, 0⟩, ⟨0, 0, 1, 0⟩⟩).m_separatingDistance ≤ 10 :=
  updateSeparatingDistance_nonincreasing (1 / 8388608)
    ⟨⟨0, 0, 0, 1⟩, ⟨0, 0, 0, 1⟩, ⟨12, 0, 0⟩, ⟨0, 0, 0⟩, ⟨1, 0, 0⟩, 1, 1, 10⟩
    ⟨⟨12, 0, 0⟩, ⟨0, 0, 0, 1⟩⟩ ⟨⟨3, 0, 0⟩, ⟨0, 0, 1, 0⟩⟩ (by norm_num) (by norm_num)

/-! ## Angles along the shortest path -/

/-- The dot product with a negated quaternion. -/
theorem dot_neg_right (q1 q2 : btQuaternion α) : dot q1 (neg q2) = -dot q1 q2 := by
  simp only [dot, neg]; ring

/-- Negating twice gives the quaternion back. -/
theorem neg_neg_quat (q : btQuaternion α) : neg (neg q) = q := by
  ext <;> simp [neg]

/-- Twice the arc cosine of a non-negative number lies in `[0, pi]`. -/
theorem two_arccos_mem (x : ℝ) (hx : 0 ≤ x) :
    0 ≤ Real.arccos x * 2.0 ∧ Real.arccos x * 2.0 ≤ Real.pi := by
  have h0 := Real.arccos_nonneg x
  have h1 := Real.arccos_le_pi_div_two.2 hx
  constructor
  · norm_num; linarith
  · norm_num; linarith

/-- The arc cosine of an absolute value is at most the arc cosine of the number and of its
negative. -/
theorem arccos_abs_le (x : ℝ) :
    Real.arccos |x| ≤ Real.arccos x ∧ Real.arccos |x| ≤ Real.arccos (-x) := by
  rcases le_or_lt 0 x with h | h
  · have h1 := Real.arccos_le_pi_div_two.2 h
    rw [abs_of_nonneg h, Real.arccos_neg]
    exact ⟨le_refl _, by linarith⟩
  · have h1 := Real.arccos_le_pi_div_two.2 (neg_nonneg.2 h.le)
    have h2 := Real.arccos_neg (-x)
    rw [neg_neg] at h2
    rw [abs_of_neg h]
    exact ⟨by linarith, le_refl _⟩

/-- The value of `angleShortestPath` in exact real arithmetic: twice the arc cosine of the
absolute value of the normalised dot product. -/
theorem angleShortestPath_value (eps : ℝ) (q1 q2 : btQuaternion ℝ) :
    angleShortestPath (realMath eps) q1 q2
      = 2 * Real.arccos (|dot q1 q2| / Real.sqrt (length2 q1 * length2 q2)) := by
  unfold angleShortestPath
  simp only [realMath, dot_neg_right]
  by_cases h : dot q1 q2 < 0
  · rw [if_pos h, abs_of_neg h]
    norm_num
    ring
  · rw [if_neg h, abs_of_nonneg (not_lt.1 h)]
    norm_num
    ring

/-- C24: `angleShortestPath` reports the shorter arc.  For all non-zero quaternions `q1`,
`q2`, with `p = dot(q1, q2) / sqrt(length2(q1) * length2(q2))`, the value of
`q1.angleShortestPath(q2)` is `2 * acos(|p|)`; it lies in `[0, pi]`, it is at most the arc
`2 * acos(p)` towards `q2` and at most the arc `2 * acos(-p)` towards `-q2`, and it equals
`q1.angleShortestPath(-q2)`. -/
theorem angleShortestPath_shorter_arc (eps : ℝ) (q1 q2 : btQuaternion ℝ)
    (_hq1 : q1 ≠ ⟨0, 0, 0, 0⟩) (_hq2 : q2 ≠ ⟨0, 0, 0, 0⟩) :
    angleShortestPath (realMath eps) q1 q2
        = 2 * Real.arccos (|dot q1 q2| / Real.sqrt (length2 q1 * length2 q2))
      ∧ 0 ≤ angleShortestPath (realMath eps) q1 q2
      ∧ angleShortestPath (realMath eps) q1 q2 ≤ Real.pi
      ∧ angleShortestPath (realMath eps) q1 q2
        ≤ 2 * Real.arccos (dot q1 q2 / Real.sqrt (length2 q1 * length2 q2))
      ∧ angleShortestPath (realMath eps) q1 q2
        ≤ 2 * Real.arccos (dot q1 (neg q2) / Real.sqrt (length2 q1 * length2 q2))
      ∧ angleShortestPath (realMath eps) q1 q2
        = angleShortestPath (realMath eps) q1 (neg q2) := by
  have hs : 0 ≤ Real.sqrt (length2 q1 * length2 q2) := Real.sqrt_nonneg _
  have hval := angleShortestPath_value eps q1 q2
  have habs : |dot q1 q2| / Real.sqrt (length2 q1 * length2 q2)
      = |dot q1 q2 / Real.sqrt (length2 q1 * length2 q2)| := by
    rw [abs_div, abs_of_nonneg hs]
  have hp : 0 ≤ |dot q1 q2| / Real.sqrt (length2 q1 * length2 q2) :=
    div_nonneg (abs_nonneg _) hs
  have h0 := Real.arccos_nonneg (|dot q1 q2| / Real.sqrt (length2 q1 * length2 q2))
  have h1 := Real.arccos_le_pi_div_two.2 hp
  have hle := arccos_abs_le (dot q1 q2 / Real.sqrt (length2 q1 * length2 q2))
  rw [← habs] at hle
  refine ⟨hval, ?_, ?_, ?_, ?_, ?_⟩
  · rw [hval]; linarith
  · rw [hval]; linarith
  · rw [hval]; linarith [hle.1]
  · rw [hval, dot_neg_right, neg_div]; linarith [hle.2]
  · rw [hval, angleShortestPath_value eps q1 (neg q2), dot_neg_right, abs_neg, length2_neg]

/-- Witness of C24 at `q1 = (0,0,0,1)` and `q2 = (0, 0, 3/5, -4/5)`, whose dot product is
negative. -/
theorem angleShortestPath_shorter_arc_witness :
    angleShortestPath (realMath (1 / 8388608)) ⟨0, 0, 0, 1⟩ ⟨0, 0, 3 / 5, -4 / 5⟩
        = 2 * Real.arccos (|dot (⟨0, 0, 0, 1⟩ : btQuaternion ℝ) ⟨0, 0, 3 / 5, -4 / 5⟩|
            / Real.sqrt (length2 (⟨0, 0, 0, 1⟩ : btQuaternion ℝ)
                * length2 (⟨0, 0, 3 / 5, -4 / 5⟩ : btQuaternion ℝ)))
      ∧ 0 ≤ angleShortestPath (realMath (1 / 8388608)) ⟨0, 0, 0, 1⟩ ⟨0, 0, 3 / 5, -4 / 5⟩
      ∧ angleShortestPath (realMath (1 / 8388608)) ⟨0, 0, 0, 1⟩ ⟨0, 0, 3 / 5, -4 / 5⟩ ≤ Real.pi
      ∧ angleShortestPath (realMath (1 / 8388608)) ⟨0, 0, 0, 1⟩ ⟨0, 0, 3 / 5, -4 / 5⟩
        ≤ 2 * Real.arccos (dot (⟨0, 0, 0, 1⟩ : btQuaternion ℝ) ⟨0, 0, 3 / 5, -4 / 5⟩
            / Real.sqrt (length2 (⟨0, 0, 0, 1⟩ : btQuaternion ℝ)
                * length2 (⟨0, 0, 3 / 5, -4 / 5⟩ : btQuaternion ℝ)))
      ∧ angleShortestPath (realMath (1 / 8388608)) ⟨0, 0, 0, 1⟩ ⟨0, 0, 3 / 5, -4 / 5⟩
        ≤ 2 * Real.arccos (dot (⟨0, 0, 0, 1⟩ : btQuaternion ℝ) (neg ⟨0, 0, 3 / 5, -4 / 5⟩)
            / Real.sqrt (length2 (⟨0, 0, 0, 1⟩ : btQuaternion ℝ)
                * length2 (⟨0, 0, 3 / 5, -4 / 5⟩ : btQuaternion ℝ)))
      ∧ angleShortestPath (realMath (1 / 8388608)) ⟨0, 0, 0, 1⟩ ⟨0, 0, 3 / 5, -4 / 5⟩
        = angleShortestPath (realMath (1 / 8388608)) ⟨0, 0, 0, 1⟩ (neg ⟨0, 0, 3 / 5, -4 / 5⟩) :=
  angleShortestPath_shorter_arc (1 / 8388608) ⟨0, 0, 0, 1⟩ ⟨0, 0, 3 / 5, -4 / 5⟩ (by simp)
    (by
      intro h
      have hz := congrArg btQuaternion.z h
      norm_num at hz)

/-- The value of `getAngleShortestPath` in exact real arithmetic: the tested dot product of
the quaternion with itself is never negative, so the result is always `2 * acos(-w)`. -/
theorem getAngleShortestPath_eq (eps : ℝ) (q : btQuaternion ℝ) :
    getAngleShortestPath (realMath eps) q = 2 * Real.arccos (-q.w) := by
  have h : ¬ (dot q q < 0) := not_lt.2 (length2_nonneg q)
  unfold getAngleShortestPath
  rw [if_neg h]
  rfl

/-- C26, the code at the failing input: for the identity quaternion `(0,0,0,1)`
`getAngleShortestPath` returns `2 * pi`, which is neither `0` nor within `[0, pi]`. -/
theorem getAngleShortestPath_identity (eps : ℝ) :
    getAngleShortestPath (realMath eps) ⟨0, 0, 0, 1⟩ = 2 * Real.pi
      ∧ Real.pi < getAngleShortestPath (realMath eps) ⟨0, 0, 0, 1⟩ := by
  have h : getAngleShortestPath (realMath eps) ⟨0, 0, 0, 1⟩ = 2 * Real.pi := by
    rw [getAngleShortestPath_eq, Real.arccos_neg_one]
  refine ⟨h, ?_⟩
  rw [h]
  have := Real.pi_pos
  linarith

/-! ## The pose invariant of `integrateTransform` -/

/-- The predicted orientation is the normalised product of `dorn` and the current
orientation. -/
theorem integrateTransform_rotation (M : btScalarMath α) (curTrans : b3Transform α)
    (linvel angvel : b3Vector3 α) (timeStep : α) :
    (integrateTransform M curTrans linvel angvel timeStep).getRotation
      = btQuaternion.normalize M
          (btQuaternion_makeQuatMultiplication (integrateTransform_dorn M angvel timeStep)
            curTrans.getRotation) := rfl

/-- A quaternion with a positive scalar part has a positive squared length. -/
theorem length2_pos_of_w_pos (q : btQuaternion α) (hw : 0 < q.w) : 0 < length2 q := by
  simp only [length2, dot]
  have hx := mul_self_nonneg q.x
  have hy := mul_self_nonneg q.y
  have hz := mul_self_nonneg q.z
  have hww := mul_pos hw hw
  linarith

/-- Normalising a quaternion of positive squared length gives a unit quaternion. -/
theorem length2_normalize (eps : ℝ) (p : btQuaternion ℝ) (hp : 0 < length2 p) :
    length2 (btQuaternion.normalize (realMath eps) p) = 1 := by
  have hs : Real.sqrt (length2 p) ≠ 0 := (Real.sqrt_pos.2 hp).ne'
  have hsq : Real.sqrt (length2 p) * Real.sqrt (length2 p) = length2 p :=
    Real.mul_self_sqrt hp.le
  have h : length2 (btQuaternion.normalize (realMath eps) p)
      = length2 p / (Real.sqrt (length2 p) * Real.sqrt (length2 p)) := by
    simp only [btQuaternion.normalize, btQuaternion.length, realMath, btQuaternion.divide]
    generalize Real.sqrt (length2 p) = r at hs
    simp only [length2, dot]
    field_simp
  rw [h, hsq]
  exact div_self hp.ne'

/-- The scalar part of `dorn` is positive for a positive time step: the half angle
`fAngle * timeStep * 0.5` lies in `[0, pi/8]`, clamped or not. -/
theorem integrateTransform_dorn_w_pos (eps : ℝ) (angvel : b3Vector3 ℝ) (timeStep : ℝ)
    (ht : 0 < timeStep) : 0 < (integrateTransform_dorn (realMath eps) angvel timeStep).w := by
  have hpi := Real.pi_pos
  have hW : 0 ≤ btVector3.length (realMath eps) angvel := Real.sqrt_nonneg _
  unfold integrateTransform_dorn
  generalize btVector3.length (realMath eps) angvel = W at hW ⊢
  simp only [ANGULAR_MOTION_THRESHOLD, realMath]
  by_cases hc : W * timeStep > 0.5 * (Real.pi / 2)
  · rw [if_pos hc]
    have e : 0.5 * (Real.pi / 2) / timeStep * timeStep * 0.5 = Real.pi / 8 := by
      field_simp; ring
    rw [e]
    exact Real.cos_pos_of_mem_Ioo ⟨by linarith, by linarith⟩
  · rw [if_neg hc]
    have h1 : 0 ≤ W * timeStep := mul_nonneg hW ht.le
    have h2 := not_lt.1 hc
    apply Real.cos_pos_of_mem_Ioo
    constructor
    · norm_num; linarith
    · norm_num at h2 ⊢; linarith

/-- C25: `integrateTransform` preserves the pose invariant.  For every pose whose
orientation is a unit quaternion, every `linVel` and `angVel` and every `timeStep > 0`, the
quaternion `dorn * orn0` that is normalised is non-zero and the predicted orientation has
unit norm, in the Taylor and in the exact branch, clamped or not. -/
theorem integrateTransform_unit_orientation (eps : ℝ) (curTrans : b3Transform ℝ)
    (linvel angvel : b3Vector3 ℝ) (timeStep : ℝ) (ht : 0 < timeStep)
    (hq : length2 curTrans.getRotation = 1) :
    (integrateTransform (realMath eps) curTrans linvel angvel timeStep).getRotation
        = btQuaternion.normalize (realMath eps)
            (btQuaternion_makeQuatMultiplication
              (integrateTransform_dorn (realMath eps) angvel timeStep) curTrans.getRotation)
      ∧ btQuaternion_makeQuatMultiplication
          (integrateTransform_dorn (realMath eps) angvel timeStep) curTrans.getRotation
        ≠ ⟨0, 0, 0, 0⟩
      ∧ length2 (integrateTransform (realMath eps) curTrans linvel angvel timeStep).getRotation
        = 1 := by
  have hpos : 0 < length2 (btQuaternion_makeQuatMultiplication
      (integrateTransform_dorn (realMath eps) angvel timeStep) curTrans.getRotation) := by
    rw [length2_mul, hq, mul_one]
    exact length2_pos_of_w_pos _ (integrateTransform_dorn_w_pos eps angvel timeStep ht)
  refine ⟨rfl, ?_, ?_⟩
  · intro h
    rw [h] at hpos
    simp [length2, dot] at hpos
  · rw [integrateTransform_rotation]
    exact length2_normalize eps _ hpos

/-- Witness of C25: the pose with orientation `(3/5, 0, 0, 4/5)`, angular velocity
`(100, 0, 0)` (clamped) and time step `1/60`. -/
theorem integrateTransform_unit_orientation_witness :
    length2 (integrateTransform (realMath (1 / 8388608)) ⟨⟨1, 2, 3⟩, ⟨3 / 5, 0, 0, 4 / 5⟩⟩
      ⟨1, 0, 0⟩ ⟨100, 0, 0⟩ (1 / 60)).getRotation = 1 :=
  (integrateTransform_unit_orientation (1 / 8388608) ⟨⟨1, 2, 3⟩, ⟨3 / 5, 0, 0, 4 / 5⟩⟩
    ⟨1, 0, 0⟩ ⟨100, 0, 0⟩ (1 / 60) (by norm_num) (by norm_num [length2, dot])).2.2

/-! ## Euler-angle construction -/

/-- The quaternion built by `btQuaternion_setRotation` from a unit axis, component by
component, with the half angle written as the code writes it. -/
theorem setRotation_of_unit (eps : ℝ) (a : btVector3 ℝ) (theta : ℝ)
    (ha : btVector3.length2 a = 1) :
    btQuaternion_setRotation (realMath eps) a theta
      = some ⟨a.x * Real.sin (theta * 0.5), a.y * Real.sin (theta * 0.5),
          a.z * Real.sin (theta * 0.5), Real.cos (theta * 0.5)⟩ := by
  have hlen : btVector3.length (realMath eps) a ≠ 0 := by
    rw [vec_length_of_unit eps a ha]; exact one_ne_zero
  have e : theta * 0.5 = theta / 2 := by norm_num; ring
  rw [setRotation_eq eps a theta hlen, axisAngleQuaternion_of_unit eps a theta ha, e]

/-- The squared length of the quaternion written by `btQuaternion_setEuler`. -/
theorem length2_setEuler (eps : ℝ) (yaw pitch roll : ℝ) :
    length2 (btQuaternion_setEuler (realMath eps) yaw pitch roll) = 1 := by
  have hY := Real.sin_sq_add_cos_sq (yaw * 0.5)
  have hP := Real.sin_sq_add_cos_sq (pitch * 0.5)
  have hR := Real.sin_sq_add_cos_sq (roll * 0.5)
  have h : length2 (btQuaternion_setEuler (realMath eps) yaw pitch roll)
      = (Real.sin (yaw * 0.5) ^ 2 + Real.cos (yaw * 0.5) ^ 2)
        * (Real.sin (pitch * 0.5) ^ 2 + Real.cos (pitch * 0.5) ^ 2)
        * (Real.sin (roll * 0.5) ^ 2 + Real.cos (roll * 0.5) ^ 2) := by
    simp only [btQuaternion_setEuler, realMath, length2, dot]
    ring
  rw [h, hY, hP, hR]; norm_num

/-- The squared length of the quaternion written by `btQuaternion_setEulerZYX`. -/
theorem length2_setEulerZYX (eps : ℝ) (yaw pitch roll : ℝ) :
    length2 (btQuaternion_setEulerZYX (realMath eps) yaw pitch roll) = 1 := by
  have hY := Real.sin_sq_add_cos_sq (yaw * 0.5)
  have hP := Real.sin_sq_add_cos_sq (pitch * 0.5)
  have hR := Real.sin_sq_add_cos_sq (roll * 0.5)
  have h : length2 (btQuaternion_setEulerZYX (realMath eps) yaw pitch roll)
      = (Real.sin (yaw * 0.5) ^ 2 + Real.cos (yaw * 0.5) ^ 2)
        * (Real.sin (pitch * 0.5) ^ 2 + Real.cos (pitch * 0.5) ^ 2)
        * (Real.sin (roll * 0.5) ^ 2 + Real.cos (roll * 0.5) ^ 2) := by
    simp only [btQuaternion_setEulerZYX, realMath, length2, dot]
    ring
  rw [h, hY, hP, hR]; norm_num

/-- C28: the Euler constructors equal the composition of three single-axis rotations in their
documented axes.  For all `yaw`, `pitch`, `roll`, `setEuler(yaw, pitch, roll)` is
`btQuaternion((0,1,0), yaw) * btQuaternion((1,0,0), pitch) * btQuaternion((0,0,1), roll)`,
and `setEulerZYX(yaw, pitch, roll)` is
`btQuaternion((0,0,1), yaw) * btQuaternion((0,1,0), pitch) * btQuaternion((1,0,0), roll)`;
both results have unit norm. -/
theorem setEuler_is_composition (eps : ℝ) (yaw pitch roll : ℝ) :
    (∃ qy qx qz : btQuaternion ℝ,
        btQuaternion_setRotation (realMath eps) ⟨0, 1, 0⟩ yaw = some qy
          ∧ btQuaternion_setRotation (realMath eps) ⟨1, 0, 0⟩ pitch = some qx
          ∧ btQuaternion_setRotation (realMath eps) ⟨0, 0, 1⟩ roll = some qz
          ∧ btQuaternion_setEuler (realMath eps) yaw pitch roll
            = btQuaternion_makeQuatMultiplication
                (btQuaternion_makeQuatMultiplication qy qx) qz)
      ∧ (∃ qz qy qx : btQuaternion ℝ,
        btQuaternion_setRotation (realMath eps) ⟨0, 0, 1⟩ yaw = some qz
          ∧ btQuaternion_setRotation (realMath eps) ⟨0, 1, 0⟩ pitch = some qy
          ∧ btQuaternion_setRotation (realMath eps) ⟨1, 0, 0⟩ roll = some qx
          ∧ btQuaternion_setEulerZYX (realMath eps) yaw pitch roll
            = btQuaternion_makeQuatMultiplication
                (btQuaternion_makeQuatMultiplication qz qy) qx)
      ∧ length2 (btQuaternion_setEuler (realMath eps) yaw pitch roll) = 1
      ∧ length2 (btQuaternion_setEulerZYX (realMath eps) yaw pitch roll) = 1 := by
  have hx : btVector3.length2 (⟨1, 0, 0⟩ : btVector3 ℝ) = 1 := by
    norm_num [btVector3.length2, btVector3.dot]
  have hy : btVector3.length2 (⟨0, 1, 0⟩ : btVector3 ℝ) = 1 := by
    norm_num [btVector3.length2, btVector3.dot]
  have hz : btVector3.length2 (⟨0, 0, 1⟩ : btVector3 ℝ) = 1 := by
    norm_num [btVector3.length2, btVector3.dot]
  refine ⟨⟨_, _, _, setRotation_of_unit eps _ yaw hy, setRotation_of_unit eps _ pitch hx,
      setRotation_of_unit eps _ roll hz, ?_⟩,
    ⟨_, _, _, setRotation_of_unit eps _ yaw hz, setRotation_of_unit eps _ pitch hy,
      setRotation_of_unit eps _ roll hx, ?_⟩,
    length2_setEuler eps yaw pitch roll, length2_setEulerZYX eps yaw pitch roll⟩
  · ext <;>
      simp only [btQuaternion_setEuler, realMath, btQuaternion_makeQuatMultiplication] <;>
      ring
  · ext <;>
      simp only [btQuaternion_setEulerZYX, realMath, btQuaternion_makeQuatMultiplication] <;>
      ring

/-! ## Velocity extraction followed by integration -/

/-- The predicted orientation of `integrateTransform` in the unclamped exact branch, for a
unit current orientation. -/
theorem integrateTransform_exact_rotation (eps : ℝ) (curTrans : b3Transform ℝ)
    (linvel angvel : b3Vector3 ℝ) (timeStep : ℝ)
    (hq : length2 curTrans.getRotation = 1)
    (hbig : 0.001 ≤ btVector3.length (realMath eps) angvel)
    (hsmall : btVector3.length (realMath eps) angvel * timeStep
      ≤ ANGULAR_MOTION_THRESHOLD (realMath eps)) :
    (integrateTransform (realMath eps) curTrans linvel angvel timeStep).getRotation
      = btQuaternion_makeQuatMultiplication
          ⟨angvel.x * (Real.sin (0.5 * btVector3.length (realMath eps) angvel * timeStep)
              / btVector3.length (realMath eps) angvel),
            angvel.y * (Real.sin (0.5 * btVector3.length (realMath eps) angvel * timeStep)
              / btVector3.length (realMath eps) angvel),
            angvel.z * (Real.sin (0.5 * btVector3.length (realMath eps) angvel * timeStep)
              / btVector3.length (realMath eps) angvel),
            Real.cos (0.5 * btVector3.length (realMath eps) angvel * timeStep)⟩
          curTrans.getRotation := by
  have hW : btVector3.length (realMath eps) angvel ≠ 0 := by
    have h : (0 : ℝ) < 0.001 := by norm_num
    exact (lt_of_lt_of_le h hbig).ne'
  have e1 : btVector3.length (realMath eps) angvel * timeStep * 0.5
      = 0.5 * btVector3.length (realMath eps) angvel * timeStep := by ring
  unfold integrateTransform
  simp only [gt_iff_lt, not_lt.2 hsmall, not_lt.2 hbig, if_false, btVector3.scale, e1]
  apply normalize_of_unit
  rw [length2_mul, hq, mul_one]
  exact length2_dorn_exact eps angvel _ hW

/-- The angular velocity returned by `calculateVelocityQuaternion` when the orientations
differ and the near-zero-axis fallback is not taken: the normalised vector part of
`nearest(orn1) * inverse(orn0)`, times its angle, over the time step. -/
theorem calculateVelocityQuaternion_angVel (eps : ℝ) (pos0 pos1 : b3Vector3 ℝ)
    (orn0 orn1 : b3Quaternion ℝ) (timeStep : ℝ) (hne : orn0 ≠ orn1)
    (hnofallback : eps * eps ≤ btVector3.length2
      (⟨(btQuaternion_makeQuatMultiplication (nearest orn0 orn1) (inverse orn0)).x,
        (btQuaternion_makeQuatMultiplication (nearest orn0 orn1) (inverse orn0)).y,
        (btQuaternion_makeQuatMultiplication (nearest orn0 orn1) (inverse orn0)).z⟩ :
          btVector3 ℝ)) :
    (calculateVelocityQuaternion (realMath eps) pos0 pos1 orn0 orn1 timeStep).2
      = btVector3.divide
          (btVector3.scale
            (btVector3.divide
              ⟨(btQuaternion_makeQuatMultiplication (nearest orn0 orn1) (inverse orn0)).x,
                (btQuaternion_makeQuatMultiplication (nearest orn0 orn1) (inverse orn0)).y,
                (btQuaternion_makeQuatMultiplication (nearest orn0 orn1) (inverse orn0)).z⟩
              (Real.sqrt (btVector3.length2
                (⟨(btQuaternion_makeQuatMultiplication (nearest orn0 orn1) (inverse orn0)).x,
                  (btQuaternion_makeQuatMultiplication (nearest orn0 orn1) (inverse orn0)).y,
                  (btQuaternion_makeQuatMultiplication (nearest orn0 orn1) (inverse orn0)).z⟩ :
                    btVector3 ℝ))))
            (2 * Real.arccos
              (btQuaternion_makeQuatMultiplication (nearest orn0 orn1) (inverse orn0)).w))
          timeStep := by
  unfold calculateVelocityQuaternion calculateDiffAxisAngleQuaternion
  simp only [hne, ne_eq, not_false_eq_true, if_true, realMath, getAngle,
    not_lt.2 hnofallback, if_false]

/-- The length of a unit axis scaled by a non-negative angle over a positive time step. -/
theorem length_axis_angle_div (eps : ℝ) (a : btVector3 ℝ) (c t : ℝ)
    (ha : btVector3.length2 a = 1) (hc : 0 ≤ c) (ht : 0 < t) :
    btVector3.length (realMath eps) (btVector3.divide (btVector3.scale a c) t) = c / t := by
  have h : btVector3.length2 (btVector3.divide (btVector3.scale a c) t) = (c / t) ^ 2 := by
    have h' : btVector3.length2 (btVector3.divide (btVector3.scale a c) t)
        = (c / t) ^ 2 * btVector3.length2 a := by
      simp only [btVector3.length2, btVector3.dot, btVector3.divide, btVector3.scale]
      ring
    rw [h', ha, mul_one]
  simp only [btVector3.length, realMath]
  rw [h]
  exact Real.sqrt_sq (div_nonneg hc ht.le)

/-- The incremental rotation built by `integrateTransform` from the angular velocity
`axis * angle / timeStep` is the axis-angle quaternion of `(axis, angle)`. -/
theorem dorn_of_axis_angle (a : btVector3 ℝ) (c t : ℝ) (hc : 0 < c) (ht : 0 < t) :
    (⟨(btVector3.divide (btVector3.scale a c) t).x * (Real.sin (0.5 * (c / t) * t) / (c / t)),
      (btVector3.divide (btVector3.scale a c) t).y * (Real.sin (0.5 * (c / t) * t) / (c / t)),
      (btVector3.divide (btVector3.scale a c) t).z * (Real.sin (0.5 * (c / t) * t) / (c / t)),
      Real.cos (0.5 * (c / t) * t)⟩ : btQuaternion ℝ)
      = ⟨a.x * Real.sin (c / 2), a.y * Real.sin (c / 2), a.z * Real.sin (c / 2),
          Real.cos (c / 2)⟩ := by
  have e : 0.5 * (c / t) * t = c / 2 := by
    field_simp; ring
  rw [e]
  have hc' := hc.ne'
  have ht' := ht.ne'
  ext <;> simp only [btVector3.divide, btVector3.scale] <;> field_simp <;> ring

/-- C31: velocity extraction followed by integration recovers the second pose.  For all
positions `pos0`, `pos1`, all unit quaternions `orn0 != orn1` and every `timeStep > 0`, with
`(linVel, angVel) = calculateVelocityQuaternion(pos0, pos1, orn0, orn1, timeStep)`: if the
near-zero-axis fallback of the difference is not taken, `|angVel| >= 0.001` and
`|angVel| * timeStep <= ANGULAR_MOTION_THRESHOLD`, then `integrateTransform` applied to the
pose `(pos0, orn0)` with `(linVel, angVel, timeStep)` yields the origin `pos1` and the
orientation `orn0.nearest(orn1)`. -/
theorem velocity_then_integrate_recovers (eps : ℝ) (heps : 0 < eps)
    (pos0 pos1 : b3Vector3 ℝ) (orn0 orn1 : b3Quaternion ℝ) (timeStep : ℝ) (ht : 0 < timeStep)
    (h0 : length2 orn0 = 1) (h1 : length2 orn1 = 1) (hne : orn0 ≠ orn1)
    (hnofallback : eps * eps ≤ btVector3.length2
      (⟨(btQuaternion_makeQuatMultiplication (nearest orn0 orn1) (inverse orn0)).x,
        (btQuaternion_makeQuatMultiplication (nearest orn0 orn1) (inverse orn0)).y,
        (btQuaternion_makeQuatMultiplication (nearest orn0 orn1) (inverse orn0)).z⟩ :
          btVector3 ℝ))
    (hbig : 0.001 ≤ btVector3.length (realMath eps)
      (calculateVelocityQuaternion (realMath eps) pos0 pos1 orn0 orn1 timeStep).2)
    (hsmall : btVector3.length (realMath eps)
        (calculateVelocityQuaternion (realMath eps) pos0 pos1 orn0 orn1 timeStep).2 * timeStep
      ≤ ANGULAR_MOTION_THRESHOLD (realMath eps)) :
    (integrateTransform (realMath eps) ⟨pos0, orn0⟩
        (calculateVelocityQuaternion (realMath eps) pos0 pos1 orn0 orn1 timeStep).1
        (calculateVelocityQuaternion (realMath eps) pos0 pos1 orn0 orn1 timeStep).2
        timeStep).getOrigin = pos1
      ∧ (integrateTransform (realMath eps) ⟨pos0, orn0⟩
        (calculateVelocityQuaternion (realMath eps) pos0 pos1 orn0 orn1 timeStep).1
        (calculateVelocityQuaternion (realMath eps) pos0 pos1 orn0 orn1 timeStep).2
        timeStep).getRotation = nearest orn0 orn1 := by
  have hd : length2 (btQuaternion_makeQuatMultiplication (nearest orn0 orn1) (inverse orn0))
      = 1 := by
    rw [length2_mul, length2_inverse, length2_nearest, h0, h1, mul_one]
  have hv := lt_of_lt_of_le (mul_pos heps heps) hnofallback
  have ha := length2_divide_sqrt _ hv
  have hth0 : 0 ≤ 2 * Real.arccos
      (btQuaternion_makeQuatMultiplication (nearest orn0 orn1) (inverse orn0)).w := by
    have := Real.arccos_nonneg
      (btQuaternion_makeQuatMultiplication (nearest orn0 orn1) (inverse orn0)).w
    linarith
  have hang := calculateVelocityQuaternion_angVel eps pos0 pos1 orn0 orn1 timeStep hne
    hnofallback
  have hW := length_axis_angle_div eps _ _ timeStep ha hth0 ht
  have hlin : (calculateVelocityQuaternion (realMath eps) pos0 pos1 orn0 orn1 timeStep).1
      = btVector3.divide (btVector3.sub pos1 pos0) timeStep := by
    unfold calculateVelocityQuaternion
    split_ifs
    rfl
  rw [hang] at hbig hsmall ⊢
  have hbig' := hbig
  have hsmall' := hsmall
  rw [hW] at hbig' hsmall'
  have hth : 0 < 2 * Real.arccos
      (btQuaternion_makeQuatMultiplication (nearest orn0 orn1) (inverse orn0)).w := by
    by_contra h
    have h001 : (0 : ℝ) < 0.001 := by norm_num
    have hle := div_nonpos_of_nonpos_of_nonneg (not_lt.1 h) ht.le
    linarith
  constructor
  · rw [hlin]
    have ht' := ht.ne'
    show btVector3.add pos0
      (btVector3.scale (btVector3.divide (btVector3.sub pos1 pos0) timeStep) timeStep) = pos1
    ext <;> simp only [btVector3.add, btVector3.scale, btVector3.divide, btVector3.sub] <;>
      field_simp
  · rw [integrateTransform_exact_rotation eps _ _ _ timeStep h0 hbig hsmall, hW,
      dorn_of_axis_angle _ _ timeStep hth ht, ← axisAngleQuaternion_of_unit eps _ _ ha,
      axisAngleQuaternion_of_axis_angle eps _ hd hv]
    exact mul_inverse_mul_cancel _ _ h0

/-- The arc cosine of `24/25` lies between `7/25` and `pi/8`. -/
theorem arccos_24_25_bounds :
    7 / 25 ≤ Real.arccos (24 / 25) ∧ Real.arccos (24 / 25) ≤ Real.pi / 8 := by
  have hpi := Real.pi_pos
  constructor
  · have h1 : Real.sin (Real.arccos (24 / 25)) ≤ Real.arccos (24 / 25) :=
      Real.sin_le (Real.arccos_nonneg _)
    rw [Real.sin_arccos] at h1
    have h2 : Real.sqrt (1 - (24 / 25 : ℝ) ^ 2) = 7 / 25 := by
      rw [show (1 - (24 / 25 : ℝ) ^ 2) = (7 / 25) ^ 2 by norm_num]
      exact Real.sqrt_sq (by norm_num)
    rw [h2] at h1
    exact h1
  · have hsqrt2 : Real.sqrt 2 ≤ 3 / 2 := by
      rw [Real.sqrt_le_left (by norm_num)]; norm_num
    have hcos : Real.cos (Real.pi / 8) ≤ 24 / 25 := by
      rw [Real.cos_pi_div_eight, div_le_iff₀ (by norm_num), Real.sqrt_le_left (by norm_num)]
      norm_num
      linarith
    have h := Real.strictAntiOn_arccos.antitoneOn
      ⟨Real.neg_one_le_cos (Real.pi / 8), Real.cos_le_one (Real.pi / 8)⟩
      (show (24 / 25 : ℝ) ∈ Set.Icc (-1 : ℝ) 1 from ⟨by norm_num, by norm_num⟩) hcos
    rwa [Real.arccos_cos (by linarith) (by linarith)] at h

/-- In the example of the witness of C31 the orientations differ. -/
theorem recover_example_ne :
    (⟨0, 0, 0, 1⟩ : btQuaternion ℝ) ≠ ⟨7 / 25, 0, 0, 24 / 25⟩ := by
  intro h
  have hx := congrArg btQuaternion.x h
  norm_num at hx

/-- In the example of the witness of C31 the difference quaternion is the second
orientation. -/
theorem recover_example_delta :
    btQuaternion_makeQuatMultiplication
        (nearest (⟨0, 0, 0, 1⟩ : btQuaternion ℝ) ⟨7 / 25, 0, 0, 24 / 25⟩)
        (inverse ⟨0, 0, 0, 1⟩) = ⟨7 / 25, 0, 0, 24 / 25⟩ := by
  have hn : nearest (⟨0, 0, 0, 1⟩ : btQuaternion ℝ) ⟨7 / 25, 0, 0, 24 / 25⟩
      = ⟨7 / 25, 0, 0, 24 / 25⟩ := by
    unfold nearest
    norm_num [dot, add, sub]
  rw [hn]
  ext <;> norm_num [btQuaternion_makeQuatMultiplication, inverse]

/-- In the example of the witness of C31 the near-zero-axis fallback is not taken. -/
theorem recover_example_nofallback :
    (1 / 8388608 : ℝ) * (1 / 8388608) ≤ btVector3.length2
      (⟨(btQuaternion_makeQuatMultiplication
            (nearest (⟨0, 0, 0, 1⟩ : btQuaternion ℝ) ⟨7 / 25, 0, 0, 24 / 25⟩)
            (inverse ⟨0, 0, 0, 1⟩)).x,
        (btQuaternion_makeQuatMultiplication
            (nearest (⟨0, 0, 0, 1⟩ : btQuaternion ℝ) ⟨7 / 25, 0, 0, 24 / 25⟩)
            (inverse ⟨0, 0, 0, 1⟩)).y,
        (btQuaternion_makeQuatMultiplication
            (nearest (⟨0, 0, 0, 1⟩ : btQuaternion ℝ) ⟨7 / 25, 0, 0, 24 / 25⟩)
            (inverse ⟨0, 0, 0, 1⟩)).z⟩ : btVector3 ℝ) := by
  rw [recover_example_delta]
  norm_num [btVector3.length2, btVector3.dot]

/-- In the example of the witness of C31 the extracted angular speed is `acos(24/25)`: the
angle `2*acos(24/25)` over the time step 2. -/
theorem recover_example_speed :
    btVector3.length (realMath (1 / 8388608))
        (calculateVelocityQuaternion (realMath (1 / 8388608)) ⟨0, 0, 0⟩ ⟨1, 2, 3⟩ ⟨0, 0, 0, 1⟩
          ⟨7 / 25, 0, 0, 24 / 25⟩ 2).2
      = Real.arccos (24 / 25) := by
  have hv := lt_of_lt_of_le (mul_pos (by norm_num : (0 : ℝ) < 1 / 8388608)
    (by norm_num : (0 : ℝ) < 1 / 8388608)) recover_example_nofallback
  have hth0 : 0 ≤ 2 * Real.arccos
      (btQuaternion_makeQuatMultiplication
        (nearest (⟨0, 0, 0, 1⟩ : btQuaternion ℝ) ⟨7 / 25, 0, 0, 24 / 25⟩)
        (inverse ⟨0, 0, 0, 1⟩)).w := by
    have := Real.arccos_nonneg
      (btQuaternion_makeQuatMultiplication
        (nearest (⟨0, 0, 0, 1⟩ : btQuaternion ℝ) ⟨7 / 25, 0, 0, 24 / 25⟩)
        (inverse ⟨0, 0, 0, 1⟩)).w
    linarith
  rw [calculateVelocityQuaternion_angVel (1 / 8388608) _ _ _ _ 2 recover_example_ne
      recover_example_nofallback,
    length_axis_angle_div (1 / 8388608) _ _ 2 (length2_divide_sqrt _ hv) hth0 (by norm_num),
    recover_example_delta]
  ring

/-- Witness of C31: from the pose at the origin with identity orientation to the pose at
`(1,2,3)` with orientation `(7/25, 0, 0, 24/25)`, over the time step 2. -/
theorem velocity_then_integrate_recovers_witness :
    (integrateTransform (realMath (1 / 8388608)) ⟨⟨0, 0, 0⟩, ⟨0, 0, 0, 1⟩⟩
        (calculateVelocityQuaternion (realMath (1 / 8388608)) ⟨0, 0, 0⟩ ⟨1, 2, 3⟩ ⟨0, 0, 0, 1⟩
          ⟨7 / 25, 0, 0, 24 / 25⟩ 2).1
        (calculateVelocityQuaternion (realMath (1 / 8388608)) ⟨0, 0, 0⟩ ⟨1, 2, 3⟩ ⟨0, 0, 0, 1⟩
          ⟨7 / 25, 0, 0, 24 / 25⟩ 2).2
        2).getOrigin = ⟨1, 2, 3⟩
      ∧ (integrateTransform (realMath (1 / 8388608)) ⟨⟨0, 0, 0⟩, ⟨0, 0, 0, 1⟩⟩
        (calculateVelocityQuaternion (realMath (1 / 8388608)) ⟨0, 0, 0⟩ ⟨1, 2, 3⟩ ⟨0, 0, 0, 1⟩
          ⟨7 / 25, 0, 0, 24 / 25⟩ 2).1
        (calculateVelocityQuaternion (realMath (1 / 8388608)) ⟨0, 0, 0⟩ ⟨1, 2, 3⟩ ⟨0, 0, 0, 1⟩
          ⟨7 / 25, 0, 0, 24 / 25⟩ 2).2
        2).getRotation = nearest ⟨0, 0, 0, 1⟩ ⟨7 / 25, 0, 0, 24 / 25⟩ :=
  velocity_then_integrate_recovers (1 / 8388608) (by norm_num) ⟨0, 0, 0⟩ ⟨1, 2, 3⟩
    ⟨0, 0, 0, 1⟩ ⟨7 / 25, 0, 0, 24 / 25⟩ 2 (by norm_num)
    (by norm_num [length2, dot]) (by norm_num [length2, dot])
    recover_example_ne recover_example_nofallback
    (by
      rw [recover_example_speed]
      have h := arccos_24_25_bounds.1
      norm_num
      linarith)
    (by
      rw [recover_example_speed]
      have h := arccos_24_25_bounds.2
      simp only [ANGULAR_MOTION_THRESHOLD, realMath]
      norm_num
      linarith)

end Bullet
